import Mathlib

/-!
Verification development for the Intear dex-engine prototype.

The Rust sources are embedded shallowly: persistent collections
(`LookupMap`, `IterableMap`, `LookupSet`, `TreeMap`) become association
lists, `u128` amounts become `Nat` with explicit `2 ^ 128` bounds at every
`checked_*` site, `NearToken` becomes its yoctonear `Nat` value, and every
`panic!` / `expect!` becomes `Except.error`.  External host facilities
(attached deposit, predecessor, `env::storage_usage()` readings, the WASM
guest of a tenant, signature verification) are oracle fields of an
environment record, threaded explicitly.
-/

namespace DexProof

/-! ## Basic data model (intear-dex-types/src/lib.rs) -/

abbrev AccountId := String

structure DexId where
  deployer : AccountId
  id : String
deriving DecidableEq, Repr

inductive AssetId where
  | near
  | nep141 (contractId : AccountId)
  | nep245 (contractId : AccountId) (tokenId : String)
  | nep171 (contractId : AccountId) (tokenId : String)
deriving DecidableEq, Repr

inductive AccountOrDexId where
  | account (a : AccountId)
  | dex (d : DexId)
deriving DecidableEq, Repr

/-- `2 ^ 128`, one past the largest `u128` value. -/
def U128LIM : Nat := 2 ^ 128

/-- `u128::checked_add`. -/
def checked_add_u128 (a b : Nat) : Option Nat :=
  if a + b < U128LIM then some (a + b) else none

/-- `checked_sub` on unsigned integers (width-independent: underflow is the
only failure). -/
def checked_sub_nat (a b : Nat) : Option Nat :=
  if b ≤ a then some (a - b) else none

/-- `u128::saturating_add` (also `NearToken::saturating_add`). -/
def saturating_add_u128 (a b : Nat) : Nat :=
  min (a + b) (U128LIM - 1)

/-- `u128::saturating_mul` (also `NearToken::saturating_mul`). -/
def saturating_mul_u128 (a b : Nat) : Nat :=
  min (a * b) (U128LIM - 1)

/-! ## Association-list maps

`LookupMap` / `IterableMap` semantics.  All maps built by the contract have
duplicate-free keys; `NodupKeys` states that and is carried as a hypothesis
where sums over entries are related to lookups. -/

def lookupA {α β : Type} [DecidableEq α] : List (α × β) → α → Option β
  | [], _ => none
  | (k, v) :: rest, key => if k = key then some v else lookupA rest key

def setA {α β : Type} [DecidableEq α] : List (α × β) → α → β → List (α × β)
  | [], key, v => [(key, v)]
  | (k, w) :: rest, key, v =>
      if k = key then (key, v) :: rest else (k, w) :: setA rest key v

def removeA {α β : Type} [DecidableEq α] : List (α × β) → α → List (α × β)
  | [], _ => []
  | (k, w) :: rest, key => if k = key then rest else (k, w) :: removeA rest key

def keysA {α β : Type} (l : List (α × β)) : List α := l.map Prod.fst

def NodupKeys {α β : Type} (l : List (α × β)) : Prop := (keysA l).Nodup

theorem lookupA_setA_self {α β : Type} [DecidableEq α] (l : List (α × β)) (k : α) (v : β) :
    lookupA (setA l k v) k = some v := by
  induction l with
  | nil => simp [setA, lookupA]
  | cons p rest ih =>
      obtain ⟨k0, v0⟩ := p
      by_cases h : k0 = k
      · simp [setA, h, lookupA]
      · simp [setA, h, lookupA, ih]

theorem lookupA_setA_ne {α β : Type} [DecidableEq α] (l : List (α × β)) (k k2 : α) (v : β)
    (h : k ≠ k2) : lookupA (setA l k v) k2 = lookupA l k2 := by
  induction l with
  | nil => simp [setA, lookupA, h]
  | cons p rest ih =>
      obtain ⟨k0, v0⟩ := p
      by_cases h0 : k0 = k
      · subst h0
        simp [setA, lookupA, h]
      · simp [setA, h0, lookupA, ih]

theorem mem_setA {α β : Type} [DecidableEq α] (l : List (α × β)) (k : α) (v : β) (p : α × β)
    (hp : p ∈ setA l k v) : p = (k, v) ∨ p ∈ l := by
  induction l with
  | nil => simpa [setA] using hp
  | cons q rest ih =>
      obtain ⟨k0, v0⟩ := q
      by_cases h : k0 = k
      · subst h
        rcases (by simpa [setA] using hp : p = (k0, v) ∨ p ∈ rest) with h1 | h1
        · exact Or.inl h1
        · exact Or.inr (List.mem_cons_of_mem _ h1)
      · rcases (by simpa [setA, h] using hp : p = (k0, v0) ∨ p ∈ setA rest k v) with h1 | h1
        · exact Or.inr (by simp [h1])
        · rcases ih h1 with h2 | h2
          · exact Or.inl h2
          · exact Or.inr (List.mem_cons_of_mem _ h2)

theorem keysA_setA {α β : Type} [DecidableEq α] (l : List (α × β)) (k : α) (v : β) :
    keysA (setA l k v) = if (lookupA l k).isSome then keysA l else keysA l ++ [k] := by
  induction l with
  | nil => simp [setA, keysA, lookupA]
  | cons p rest ih =>
      obtain ⟨k0, v0⟩ := p
      by_cases h : k0 = k
      · simp [setA, h, keysA, lookupA]
      · have hl : lookupA ((k0, v0) :: rest) k = lookupA rest k := by simp [lookupA, h]
        simp only [setA, if_neg h, keysA, List.map_cons, hl]
        by_cases h2 : (lookupA rest k).isSome
        · simp only [keysA] at ih
          simp [h2, ih]
        · simp only [keysA] at ih
          simp only [h2] at ih
          simp [h2, ih]

theorem nodupKeys_setA {α β : Type} [DecidableEq α] (l : List (α × β)) (k : α) (v : β)
    (h : NodupKeys l) : NodupKeys (setA l k v) := by
  unfold NodupKeys
  rw [keysA_setA]
  by_cases h2 : (lookupA l k).isSome
  · simpa [h2] using h
  · have hk : k ∉ keysA l := by
      intro hmem
      apply h2
      clear h h2
      induction l with
      | nil => simp [keysA] at hmem
      | cons p rest ih =>
          obtain ⟨k0, v0⟩ := p
          by_cases h4 : k0 = k
          · simp [lookupA, h4]
          · have h3 : k ∈ keysA rest := by
              rcases (by simpa [keysA] using hmem : k = k0 ∨ ∃ x, (k, x) ∈ rest) with h5 | h5
              · exact absurd h5.symm h4
              · obtain ⟨x, hx⟩ := h5
                exact List.mem_map_of_mem Prod.fst hx
            simpa [lookupA, h4] using ih h3
    simp only [h2, if_false, Bool.false_eq_true]
    exact List.Nodup.append h (List.nodup_singleton k) (by simpa using hk)

/-! ## Storage-balance accounting (src/src/storage_management.rs) -/

/-- `StorageUsed { total, used }`, both `NearToken` values in yoctonear. -/
structure StorageUsed where
  total : Nat
  used : Nat
deriving DecidableEq, Repr

/-- The `From<StorageUsed> for StorageBalance` conversion: computes
`available = total - used` and panics when `used > total`. -/
def storage_available (b : StorageUsed) : Except String Nat :=
  if b.used ≤ b.total then .ok (b.total - b.used)
  else .error "Total balance less than used balance"

/-- `STORAGE_MIN_BOUND = 0.01 NEAR` in yoctonear. -/
def STORAGE_MIN_BOUND : Nat := 10 ^ 22

abbrev StorageBalances (K : Type) := List (K × StorageUsed)

/-- `StorageBalances::deposit`: credit `amount` to `total`, creating a
default entry when missing. -/
def sb_deposit {K : Type} [DecidableEq K] (m : StorageBalances K) (k : K) (amount : Nat) :
    StorageBalances K :=
  let b := (lookupA m k).getD ⟨0, 0⟩
  setA m k { b with total := saturating_add_u128 b.total amount }

/-- `StorageBalances::charge`: translate a byte delta between two
`env::storage_usage()` readings into a cost and charge or refund it. -/
def sb_charge {K : Type} [DecidableEq K] (byteCost : Nat) (m : StorageBalances K) (k : K)
    (storage_usage_before storage_usage_after : Nat) : Except String (StorageBalances K) :=
  if storage_usage_before < storage_usage_after then
    let cost := saturating_mul_u128 byteCost (storage_usage_after - storage_usage_before)
    let b := (lookupA m k).getD ⟨0, 0⟩
    match checked_add_u128 b.used cost with
    | none => .error "Storage cost overflow"
    | some used2 =>
        if b.total < used2 then .error "Storage used exceeds total"
        else .ok (setA m k { b with used := used2 })
  else if storage_usage_after < storage_usage_before then
    let cost := saturating_mul_u128 byteCost (storage_usage_before - storage_usage_after)
    let b := (lookupA m k).getD ⟨0, 0⟩
    match checked_sub_nat b.used cost with
    | none => .error "Storage cost underflow"
    | some used2 => .ok (setA m k { b with used := used2 })
  else .ok m

/-- Common tail of `StorageBalances::storage_deposit`: credit `deposit` to
`total` (creating the entry when missing), charge the byte delta of the
flush to `used`, and run the final `StorageBalance` conversion, which fails
when `used > total`. -/
def sb_storage_deposit_core {K : Type} [DecidableEq K] (byteCost : Nat)
    (m : StorageBalances K) (k : K) (deposit : Nat)
    (storage_usage_before storage_usage_after : Nat) : Except String (StorageBalances K) :=
  let m1 := match lookupA m k with
    | some b => setA m k { b with total := saturating_add_u128 b.total deposit }
    | none => setA m k { total := deposit, used := 0 }
  if storage_usage_after < storage_usage_before then
    .error "Storage somehow shrank after insertion or modification of constant-sized data"
  else
    let cost := saturating_mul_u128 byteCost (storage_usage_after - storage_usage_before)
    match lookupA m1 k with
    | none => .error "Just inserted"
    | some b1 =>
        let m2 := setA m1 k { b1 with used := saturating_add_u128 b1.used cost }
        match lookupA m2 k with
        | none => .error "Just inserted"
        | some b2 =>
            match storage_available b2 with
            | .error e => .error e
            | .ok _ => .ok m2

/-- `StorageBalances::storage_deposit`.  `attached` is the attached deposit
in yoctonear (the pipeline passes an explicit amount through the same
entry).  With `registration_only = some true` and an existing entry the
deposit is refunded and nothing changes; otherwise at most
`STORAGE_MIN_BOUND` of it is kept. -/
def sb_storage_deposit {K : Type} [DecidableEq K] (byteCost : Nat) (m : StorageBalances K)
    (k : K) (attached : Nat) (registration_only : Option Bool)
    (storage_usage_before storage_usage_after : Nat) : Except String (StorageBalances K) :=
  match registration_only with
  | some true =>
      match lookupA m k with
      | some b =>
          match storage_available b with
          | .error e => .error e
          | .ok _ => .ok m
      | none =>
          let dep := if STORAGE_MIN_BOUND ≤ attached then STORAGE_MIN_BOUND else attached
          sb_storage_deposit_core byteCost m k dep storage_usage_before storage_usage_after
  | _ => sb_storage_deposit_core byteCost m k attached storage_usage_before storage_usage_after

/-- `StorageBalances::storage_withdraw` (after the one-yocto assertion,
which only inspects the environment). -/
def sb_storage_withdraw {K : Type} [DecidableEq K] (m : StorageBalances K) (k : K)
    (amount : Option Nat) : Except String (StorageBalances K) :=
  match lookupA m k with
  | none => .error "Storage used not found"
  | some b =>
      match storage_available b with
      | .error e => .error e
      | .ok available =>
          let amtE : Except String Nat := match amount with
            | some requested =>
                if available < requested then .error "Amount exceeds storage used"
                else .ok requested
            | none => .ok available
          match amtE with
          | .error e => .error e
          | .ok amt =>
              match checked_sub_nat b.total amt with
              | none => .error "Total balance less than used balance"
              | some t2 => .ok (setA m k { b with total := t2 })

/-- Storage discipline: every entry satisfies `used ≤ total`, and `total`
is a representable `u128` value. -/
def SbWF {K : Type} (m : StorageBalances K) : Prop :=
  ∀ p ∈ m, (Prod.snd p).used ≤ (Prod.snd p).total ∧ (Prod.snd p).total < U128LIM

theorem sbWF_setA {K : Type} [DecidableEq K] (m : StorageBalances K) (k : K) (v : StorageUsed)
    (h : SbWF m) (hv : v.used ≤ v.total ∧ v.total < U128LIM) : SbWF (setA m k v) := by
  intro p hp
  rcases mem_setA m k v p hp with h1 | h1
  · simpa [h1] using hv
  · exact h p h1

theorem sbWF_lookup {K : Type} [DecidableEq K] (m : StorageBalances K) (k : K)
    (b : StorageUsed) (h : SbWF m) (hb : lookupA m k = some b) :
    b.used ≤ b.total ∧ b.total < U128LIM := by
  induction m with
  | nil => simp [lookupA] at hb
  | cons p rest ih =>
      obtain ⟨k0, v0⟩ := p
      by_cases h0 : k0 = k
      · have : v0 = b := by simpa [lookupA, h0] using hb
        subst this
        exact h (k0, v0) (by simp)
      · exact ih (fun q hq => h q (List.mem_cons_of_mem _ hq)) (by simpa [lookupA, h0] using hb)

theorem sbWF_getD {K : Type} [DecidableEq K] (m : StorageBalances K) (k : K) (h : SbWF m) :
    ((lookupA m k).getD ⟨0, 0⟩).used ≤ ((lookupA m k).getD ⟨0, 0⟩).total ∧
      ((lookupA m k).getD ⟨0, 0⟩).total < U128LIM := by
  cases hb : lookupA m k with
  | none => simp [U128LIM]
  | some b => simpa using sbWF_lookup m k b h hb

theorem sbWF_sb_charge {K : Type} [DecidableEq K] (byteCost : Nat) (m : StorageBalances K)
    (k : K) (u1 u2 : Nat) (m2 : StorageBalances K) (h : SbWF m)
    (hok : sb_charge byteCost m k u1 u2 = .ok m2) : SbWF m2 := by
  have hb := sbWF_getD m k h
  unfold sb_charge at hok
  dsimp only at hok
  split at hok
  · split at hok
    · exact absurd hok (by simp)
    · rename_i used2 hadd
      split at hok
      · exact absurd hok (by simp)
      · rename_i hle
        cases hok
        exact sbWF_setA _ _ _ h ⟨Nat.le_of_not_lt hle, hb.2⟩
  · split at hok
    · split at hok
      · exact absurd hok (by simp)
      · rename_i used2 hsub
        cases hok
        have hu : used2 ≤ ((lookupA m k).getD ⟨0, 0⟩).used := by
          unfold checked_sub_nat at hsub
          split at hsub
          · cases hsub
            exact Nat.sub_le _ _
          · cases hsub
        exact sbWF_setA _ _ _ h ⟨le_trans hu hb.1, hb.2⟩
    · cases hok
      exact h

theorem sbWF_sb_deposit {K : Type} [DecidableEq K] (m : StorageBalances K) (k : K)
    (amount : Nat) (h : SbWF m) : SbWF (sb_deposit m k amount) := by
  have hb := sbWF_getD m k h
  refine sbWF_setA _ _ _ h ⟨?_, ?_⟩
  · exact le_min (le_trans hb.1 (Nat.le_add_right _ _))
      (le_trans hb.1 (by omega))
  · have : min (((lookupA m k).getD ⟨0, 0⟩).total + amount) (U128LIM - 1) ≤ U128LIM - 1 :=
      min_le_right _ _
    simp only [saturating_add_u128]
    omega

theorem sbWF_sb_storage_deposit_core {K : Type} [DecidableEq K] (byteCost : Nat)
    (m : StorageBalances K) (k : K) (deposit u1 u2 : Nat) (m2 : StorageBalances K)
    (h : SbWF m) (hdep : deposit < U128LIM)
    (hok : sb_storage_deposit_core byteCost m k deposit u1 u2 = .ok m2) : SbWF m2 := by
  unfold sb_storage_deposit_core at hok
  set m1 := (match lookupA m k with
    | some b => setA m k { b with total := saturating_add_u128 b.total deposit }
    | none => setA m k { total := deposit, used := 0 }) with hm1
  have hwf1 : SbWF m1 := by
    rw [hm1]
    cases hb : lookupA m k with
    | none => exact sbWF_setA _ _ _ h ⟨Nat.zero_le _, hdep⟩
    | some b =>
        have hbw := sbWF_lookup m k b h hb
        refine sbWF_setA _ _ _ h ⟨?_, ?_⟩
        · exact le_min (le_trans hbw.1 (Nat.le_add_right _ _)) (le_trans hbw.1 (by omega))
        · have : min (b.total + deposit) (U128LIM - 1) ≤ U128LIM - 1 := min_le_right _ _
          simp only [saturating_add_u128]
          omega
  dsimp only at hok
  split at hok
  · exact absurd hok (by simp)
  · split at hok
    · exact absurd hok (by simp)
    · rename_i b1 hb1
      have hwfb1 := sbWF_lookup m1 k b1 hwf1 hb1
      split at hok
      · exact absurd hok (by simp)
      · rename_i b2 hb2
        have hb2eq : b2 = { b1 with used := saturating_mul_u128 byteCost (u2 - u1) |>
            (fun cost => saturating_add_u128 b1.used cost) } := by
          rw [lookupA_setA_self] at hb2
          exact (Option.some.inj hb2).symm
        split at hok
        · exact absurd hok (by simp)
        · rename_i havail
          cases hok
          have hused : b2.used ≤ b2.total := by
            by_contra hcon
            simp [storage_available, hcon] at havail
          refine sbWF_setA _ _ _ hwf1 ?_
          have : b2.total = b1.total := by rw [hb2eq]
          rw [← hb2eq]
          exact ⟨hused, by rw [this]; exact hwfb1.2⟩

theorem sbWF_sb_storage_deposit {K : Type} [DecidableEq K] (byteCost : Nat)
    (m : StorageBalances K) (k : K) (attached : Nat) (ro : Option Bool) (u1 u2 : Nat)
    (m2 : StorageBalances K) (h : SbWF m) (hatt : attached < U128LIM)
    (hok : sb_storage_deposit byteCost m k attached ro u1 u2 = .ok m2) : SbWF m2 := by
  unfold sb_storage_deposit at hok
  have hmin : STORAGE_MIN_BOUND < U128LIM := by decide
  match ro with
  | some true =>
      simp only at hok
      split at hok
      · split at hok
        · exact absurd hok (by simp)
        · cases hok
          exact h
      · exact sbWF_sb_storage_deposit_core byteCost m k _ u1 u2 m2 h
          (by split <;> omega) hok
  | some false => exact sbWF_sb_storage_deposit_core byteCost m k _ u1 u2 m2 h hatt hok
  | none => exact sbWF_sb_storage_deposit_core byteCost m k _ u1 u2 m2 h hatt hok

theorem sbWF_sb_storage_withdraw {K : Type} [DecidableEq K] (m : StorageBalances K) (k : K)
    (amount : Option Nat) (m2 : StorageBalances K) (h : SbWF m)
    (hok : sb_storage_withdraw m k amount = .ok m2) : SbWF m2 := by
  unfold sb_storage_withdraw at hok
  dsimp only at hok
  split at hok
  · exact absurd hok (by simp)
  · rename_i b hb
    have hbw := sbWF_lookup m k b h hb
    split at hok
    · exact absurd hok (by simp)
    · rename_i available havail
      have havv : available = b.total - b.used := by
        unfold storage_available at havail
        split at havail
        · cases havail; rfl
        · cases havail
      split at hok
      · exact absurd hok (by simp)
      · rename_i amt hamt
        have hamtle : amt ≤ available := by
          cases amount with
          | some requested =>
              simp only at hamt
              split at hamt
              · cases hamt
              · cases hamt
                omega
          | none =>
              simp only at hamt
              cases hamt
              exact le_refl _
        split at hok
        · exact absurd hok (by simp)
        · rename_i t2 ht2
          cases hok
          have ht2v : t2 = b.total - amt := by
            unfold checked_sub_nat at ht2
            split at ht2
            · cases ht2; rfl
            · cases ht2
          obtain ⟨hbw1, hbw2⟩ := hbw
          refine sbWF_setA _ _ _ h ⟨?_, ?_⟩
          · show b.used ≤ t2
            omega
          · show t2 < U128LIM
            omega

/-- Claim C2: Storage discipline.  After any successful storage-balance
mutation (`StorageBalances::charge`, `::deposit`, `::storage_deposit`,
`::storage_withdraw`), every entry of the storage-balance map satisfies
`used ≤ total` (`SbWF`), and a positive charge whose cost would push
`used` above `total` fails the operation. -/
theorem c2_storage_discipline :
    (∀ (K : Type) [DecidableEq K] (byteCost : Nat) (m : StorageBalances K) (k : K)
        (u1 u2 : Nat) (m2 : StorageBalances K),
        SbWF m → sb_charge byteCost m k u1 u2 = .ok m2 → SbWF m2) ∧
    (∀ (K : Type) [DecidableEq K] (byteCost : Nat) (m : StorageBalances K) (k : K)
        (u1 u2 used2 : Nat),
        u1 < u2 →
        checked_add_u128 ((lookupA m k).getD ⟨0, 0⟩).used
          (saturating_mul_u128 byteCost (u2 - u1)) = some used2 →
        ((lookupA m k).getD ⟨0, 0⟩).total < used2 →
        sb_charge byteCost m k u1 u2 = .error "Storage used exceeds total") ∧
    (∀ (K : Type) [DecidableEq K] (m : StorageBalances K) (k : K) (amount : Nat),
        SbWF m → SbWF (sb_deposit m k amount)) ∧
    (∀ (K : Type) [DecidableEq K] (byteCost : Nat) (m : StorageBalances K) (k : K)
        (attached : Nat) (ro : Option Bool) (u1 u2 : Nat) (m2 : StorageBalances K),
        SbWF m → attached < U128LIM →
        sb_storage_deposit byteCost m k attached ro u1 u2 = .ok m2 → SbWF m2) ∧
    (∀ (K : Type) [DecidableEq K] (m : StorageBalances K) (k : K) (amount : Option Nat)
        (m2 : StorageBalances K),
        SbWF m → sb_storage_withdraw m k amount = .ok m2 → SbWF m2) := by
  refine ⟨?_, ?_, ?_, ?_, ?_⟩
  · intro K _ byteCost m k u1 u2 m2 h hok
    exact sbWF_sb_charge byteCost m k u1 u2 m2 h hok
  · intro K _ byteCost m k u1 u2 used2 hlt hadd hover
    unfold sb_charge
    rw [if_pos hlt]
    dsimp only
    rw [hadd]
    simp [hover]
  · intro K _ m k amount h
    exact sbWF_sb_deposit m k amount h
  · intro K _ byteCost m k attached ro u1 u2 m2 h hatt hok
    exact sbWF_sb_storage_deposit byteCost m k attached ro u1 u2 m2 h hatt hok
  · intro K _ m k amount m2 h hok
    exact sbWF_sb_storage_withdraw m k amount m2 h hok

/-- Witness for C2: the charge conjunct applied at a concrete map and a
zero byte-delta. -/
theorem c2_storage_discipline_witness :
    SbWF [(("alice" : AccountId), ({ total := 10, used := 3 } : StorageUsed))] :=
  c2_storage_discipline.1 AccountId 7
    [("alice", { total := 10, used := 3 })] "alice" 5 5
    [("alice", { total := 10, used := 3 })] (by unfold SbWF U128LIM; decide) rfl

/-! ## Wire types (intear-dex-types/src/lib.rs) -/

inductive SwapRequestAmount where
  | exactIn (amount : Nat)
  | exactOut (amount : Nat)
deriving DecidableEq, Repr

structure SwapRequest where
  message : List Nat
  asset_in : AssetId
  asset_out : AssetId
  amount : SwapRequestAmount
deriving DecidableEq, Repr

structure SwapResponse where
  amount_in : Nat
  amount_out : Nat
deriving DecidableEq, Repr

inductive AssetWithdrawalType where
  | toInternalUserBalance (account : AccountId)
  | toInternalDexBalance (dexId : DexId)
  | withdrawUnderlyingAsset (account : AccountId)
deriving DecidableEq, Repr

structure AssetWithdrawRequest where
  asset_id : AssetId
  amount : Nat
  withdrawal_type : AssetWithdrawalType
deriving DecidableEq, Repr

structure DexCallResponse where
  asset_withdraw_requests : List AssetWithdrawRequest
  add_storage_deposit : Nat
  response : List Nat
deriving DecidableEq, Repr

/-! ## Engine state (src/src/lib.rs `DexEngine`) -/

structure EngineState where
  dex_balances : List ((DexId × AssetId) × Nat)
  dex_storage : List ((DexId × List Nat) × List Nat)
  dex_codes : List (DexId × List Nat)
  dex_storage_balances : StorageBalances DexId
  user_balances : List ((AccountId × AssetId) × Nat)
  user_storage_balances : StorageBalances AccountId
  total_in_custody : List (AssetId × Nat)
deriving DecidableEq, Repr

/-! ## Asset primitives (src/src/internal_asset_operations.rs) -/

def asset_balance_of (st : EngineState) (of : AccountOrDexId) (asset_id : AssetId) :
    Option Nat :=
  match of with
  | .account a => lookupA st.user_balances (a, asset_id)
  | .dex d => lookupA st.dex_balances (d, asset_id)

/-- `DexEngine::assert_has_enough`. -/
def assert_has_enough (st : EngineState) (who : AccountOrDexId) (asset_id : AssetId)
    (amount : Nat) : Except String Unit :=
  match asset_balance_of st who asset_id with
  | none => .error "Balance not found"
  | some balance =>
      if amount ≤ balance then .ok () else .error "Insufficient balance in ensure_has_assets"

/-- `DexEngine::assert_asset_registered` (= `assert_has_enough` with 0). -/
def assert_asset_registered (st : EngineState) (who : AccountOrDexId) (asset_id : AssetId) :
    Except String Unit :=
  assert_has_enough st who asset_id 0

/-- Modelled from the spec: `DexEngine::asset_is_registered` is referenced
by `internal_execute_operations` but its body is not among the given
sources; per the spec a `(principal, asset)` pair is registered exactly
when its balance entry exists. -/
def asset_is_registered (st : EngineState) (who : AccountOrDexId) (asset_id : AssetId) :
    Bool :=
  (asset_balance_of st who asset_id).isSome

/-- `DexEngine::internal_increase_assets`: requires the entry to exist,
adds with a `u128` overflow check. -/
def internal_increase_assets (st : EngineState) (who : AccountOrDexId) (asset_id : AssetId)
    (amount : Nat) : Except String EngineState :=
  match assert_asset_registered st who asset_id with
  | .error e => .error e
  | .ok _ =>
      match who with
      | .account a =>
          match lookupA st.user_balances (a, asset_id) with
          | none => .error "Failed to deposit assets to user balance"
          | some b =>
              match checked_add_u128 b amount with
              | none => .error "Balance overflow"
              | some b2 => .ok { st with user_balances := setA st.user_balances (a, asset_id) b2 }
      | .dex d =>
          match lookupA st.dex_balances (d, asset_id) with
          | none => .error "Failed to deposit assets to dex balance"
          | some b =>
              match checked_add_u128 b amount with
              | none => .error "Balance overflow"
              | some b2 => .ok { st with dex_balances := setA st.dex_balances (d, asset_id) b2 }

/-- `DexEngine::internal_decrease_assets`: requires the entry to exist,
subtracts with an underflow check. -/
def internal_decrease_assets (st : EngineState) (who : AccountOrDexId) (asset_id : AssetId)
    (amount : Nat) : Except String EngineState :=
  match who with
  | .account a =>
      match lookupA st.user_balances (a, asset_id) with
      | none => .error "Failed to withdraw assets from user balance"
      | some b =>
          match checked_sub_nat b amount with
          | none => .error "Insufficient balance"
          | some b2 => .ok { st with user_balances := setA st.user_balances (a, asset_id) b2 }
  | .dex d =>
      match lookupA st.dex_balances (d, asset_id) with
      | none => .error "Failed to withdraw assets from dex balance"
      | some b =>
          match checked_sub_nat b amount with
          | none => .error "Insufficient balance"
          | some b2 => .ok { st with dex_balances := setA st.dex_balances (d, asset_id) b2 }

/-- `DexEngine::internal_transfer_asset`: zero amount is a no-op,
otherwise decrease then increase. -/
def internal_transfer_asset (st : EngineState) (fromP toP : AccountOrDexId)
    (asset_id : AssetId) (amount : Nat) : Except String EngineState :=
  if amount = 0 then .ok st
  else
    match internal_decrease_assets st fromP asset_id amount with
    | .error e => .error e
    | .ok st2 => internal_increase_assets st2 toP asset_id amount

/-! ## Custody-sum updates

The repeated `total_in_custody.entry(..).and_modify(checked add or sub)
.or_insert_with(panic)` blocks of asset_deposit.rs and
internal_operations.rs. -/

def custody_add (st : EngineState) (asset_id : AssetId) (amount : Nat) :
    Except String EngineState :=
  match lookupA st.total_in_custody asset_id with
  | none => .error "Failed to deposit assets to contract tracked balance: asset not registered"
  | some b =>
      match checked_add_u128 b amount with
      | none => .error "Balance overflow for contract"
      | some b2 => .ok { st with total_in_custody := setA st.total_in_custody asset_id b2 }

def custody_sub (st : EngineState) (asset_id : AssetId) (amount : Nat) :
    Except String EngineState :=
  match lookupA st.total_in_custody asset_id with
  | none => .error "Failed to withdraw assets from contract tracked balance: asset not registered"
  | some b =>
      match checked_sub_nat b amount with
      | none => .error "Balance underflow for contract"
      | some b2 => .ok { st with total_in_custody := setA st.total_in_custody asset_id b2 }

/-! ## Host environment

Oracle record for everything the contract reads from the NEAR host or from
a tenant WASM guest: the predecessor, the attached deposit, the
`env::storage_usage()` byte counter (indexed by the number of readings so
far), the storage byte cost, and the tenant modules themselves (a guest is
a function of its request and its tenant storage view, returning `none`
when it traps, returns nothing parseable, or returns nothing at all where
a response is required). -/

structure Env where
  predecessor : AccountId
  attachedDeposit : Nat
  byteCost : Nat
  usage : Nat → Nat
  swapResponder : DexId → SwapRequest → List ((DexId × List Nat) × List Nat) →
    Option (SwapResponse × List ((DexId × List Nat) × List Nat))
  callResponder : DexId → String → List Nat → List (AssetId × Nat) →
    List ((DexId × List Nat) × List Nat) →
    Option (DexCallResponse × List ((DexId × List Nat) × List Nat))

/-! ## Withdrawals (src/src/internal_operations.rs) -/

/-- The data of an outbound token-transfer promise produced by
`internal_withdraw_unchecked` (the promise itself is external). -/
structure WithdrawDispatch where
  asset_id : AssetId
  amount : Nat
  withdraw_to : AccountId
  withdraw_from : AccountOrDexId
deriving DecidableEq, Repr

/-- `DexEngine::internal_withdraw`: debit the principal and the custody
sum synchronously, then dispatch the transfer promise.  A zero amount is
an immediate success with no dispatch. -/
def internal_withdraw (st : EngineState) (asset_id : AssetId) (amount : Option Nat)
    (withdraw_to : Option AccountId) (withdraw_from : AccountOrDexId) :
    Except String (EngineState × Option WithdrawDispatch) :=
  let amount := amount.getD ((asset_balance_of st withdraw_from asset_id).getD 0)
  if amount = 0 then .ok (st, none)
  else
    match internal_decrease_assets st withdraw_from asset_id amount with
    | .error e => .error e
    | .ok st2 =>
        match custody_sub st2 asset_id amount with
        | .error e => .error e
        | .ok st3 =>
            match withdraw_to with
            | some t => .ok (st3, some ⟨asset_id, amount, t, withdraw_from⟩)
            | none =>
                match withdraw_from with
                | .account a => .ok (st3, some ⟨asset_id, amount, a, withdraw_from⟩)
                | .dex _ => .error "withdraw_to must be present when withdrawing from a dex"

/-- `DexEngine::after_withdraw`: the withdrawal callback.  On external
failure the amount is re-credited to both the principal and the custody
sum; on success nothing changes. -/
def after_withdraw (st : EngineState) (asset_id : AssetId) (amount : Nat)
    (withdraw_from : AccountOrDexId) (result_ok : Bool) :
    Except String (EngineState × Bool) :=
  if result_ok then .ok (st, true)
  else
    match internal_increase_assets st withdraw_from asset_id amount with
    | .error e => .error e
    | .ok st2 =>
        match custody_add st2 asset_id amount with
        | .error e => .error e
        | .ok st3 => .ok (st3, false)

/-! ## Swap execution (src/src/internal_operations.rs `internal_swap_simple`) -/

inductive TradeAccount where
  | user (a : AccountId)
  | sandboxed (assets : List (AssetId × Nat)) (alleged_trader : AccountId)
deriving DecidableEq, Repr

/-- The response-validation `match` of `internal_swap_simple` (also in
`swap_one_dex`): `ExactIn` pins `amount_in`, `ExactOut` pins
`amount_out`, and the respective other field is unconstrained. -/
def checkSwapAmounts (amount : SwapRequestAmount) (response : SwapResponse) :
    Except String Unit :=
  match amount with
  | .exactIn exact_in =>
      if exact_in = response.amount_in then .ok () else .error "Amount in does not match"
  | .exactOut exact_out =>
      if exact_out = response.amount_out then .ok () else .error "Amount out does not match"

structure SwapResult where
  st : EngineState
  trader : TradeAccount
  amount_in : Nat
  amount_out : Nat
  ctr : Nat
deriving DecidableEq, Repr

def internal_swap_simple (env : Env) (dex_id : DexId) (message : List Nat)
    (asset_in asset_out : AssetId) (amount : SwapRequestAmount) (trader : TradeAccount)
    (st : EngineState) (c : Nat) : Except String SwapResult :=
  let swap_request : SwapRequest := ⟨message, asset_in, asset_out, amount⟩
  match lookupA st.dex_codes dex_id with
  | none => .error "Dex code not found"
  | some _ =>
      let u1 := env.usage c
      match env.swapResponder dex_id swap_request st.dex_storage with
      | none => .error "No response from swap"
      | some (response, dexStorage2) =>
          let st := { st with dex_storage := dexStorage2 }
          let u2 := env.usage (c + 1)
          match sb_charge env.byteCost st.dex_storage_balances dex_id u1 u2 with
          | .error e => .error e
          | .ok dsb =>
              let st := { st with dex_storage_balances := dsb }
              match checkSwapAmounts swap_request.amount response with
              | .error e => .error e
              | .ok _ =>
                  match trader with
                  | .user u =>
                      match internal_transfer_asset st (.account u) (.dex dex_id)
                          asset_in response.amount_in with
                      | .error e => .error e
                      | .ok st2 =>
                          match internal_transfer_asset st2 (.dex dex_id) (.account u)
                              asset_out response.amount_out with
                          | .error e => .error e
                          | .ok st3 =>
                              .ok ⟨st3, .user u, response.amount_in, response.amount_out, c + 2⟩
                  | .sandboxed assets alleged =>
                      match lookupA assets asset_in with
                      | none => .error "Asset in not found in anonymous assets"
                      | some bin =>
                          match checked_sub_nat bin response.amount_in with
                          | none => .error "Not enough input balance in anonymous assets"
                          | some bin2 =>
                              let assets := setA assets asset_in bin2
                              match internal_increase_assets st (.dex dex_id) asset_in
                                  response.amount_in with
                              | .error e => .error e
                              | .ok st2 =>
                                  match internal_decrease_assets st2 (.dex dex_id) asset_out
                                      response.amount_out with
                                  | .error e => .error e
                                  | .ok st3 =>
                                      let bout := (lookupA assets asset_out).getD 0
                                      match checked_add_u128 bout response.amount_out with
                                      | none => .error "Balance overflow"
                                      | some bout2 =>
                                          .ok ⟨st3, .sandboxed (setA assets asset_out bout2)
                                            alleged, response.amount_in, response.amount_out,
                                            c + 2⟩

/-! ## Dex calls (src/src/internal_operations.rs `internal_dex_call`) -/

def process_withdraw_request (st : EngineState) (dex_id : DexId)
    (req : AssetWithdrawRequest) : Except String EngineState :=
  match req.withdrawal_type with
  | .toInternalUserBalance account =>
      internal_transfer_asset st (.dex dex_id) (.account account) req.asset_id req.amount
  | .toInternalDexBalance other_dex_id =>
      internal_transfer_asset st (.dex dex_id) (.dex other_dex_id) req.asset_id req.amount
  | .withdrawUnderlyingAsset to_account_id =>
      match internal_withdraw st req.asset_id (some req.amount) (some to_account_id)
          (.dex dex_id) with
      | .error e => .error e
      | .ok (st2, _) => .ok st2

def internal_dex_call (env : Env) (dex_id : DexId) (method : String) (args : List Nat)
    (attached_assets : List (AssetId × Nat)) (predecessor : AccountId) (st : EngineState)
    (c : Nat) : Except String (EngineState × List Nat × Nat) :=
  if method = "swap" then .error "Method name swap is reserved for the swap operation"
  else
    match attached_assets.foldlM
        (fun _ kv => assert_has_enough st (.account predecessor) kv.1 kv.2) () with
    | .error e => .error e
    | .ok _ =>
        match lookupA st.dex_codes dex_id with
        | none => .error "Dex code not found"
        | some _ =>
            let u1 := env.usage c
            match env.callResponder dex_id method args attached_assets st.dex_storage with
            | none => .error "Failed to call function"
            | some (response, dexStorage2) =>
                let st := { st with dex_storage := dexStorage2 }
                let u2 := env.usage (c + 1)
                match sb_charge env.byteCost st.dex_storage_balances dex_id u1 u2 with
                | .error e => .error e
                | .ok dsb =>
                    let st := { st with dex_storage_balances := dsb }
                    match attached_assets.foldlM
                        (fun st kv => internal_transfer_asset st (.account predecessor)
                          (.dex dex_id) kv.1 kv.2) st with
                    | .error e => .error e
                    | .ok st2 =>
                        match response.asset_withdraw_requests.foldlM
                            (fun st req => process_withdraw_request st dex_id req) st2 with
                        | .error e => .error e
                        | .ok st3 =>
                            if response.add_storage_deposit ≠ 0 then
                              match internal_decrease_assets st3 (.dex dex_id) .near
                                  response.add_storage_deposit with
                              | .error e => .error e
                              | .ok st4 =>
                                  let dsb2 := sb_deposit st4.dex_storage_balances dex_id
                                    response.add_storage_deposit
                                  .ok ({ st4 with dex_storage_balances := dsb2 },
                                    response.response, c + 2)
                            else .ok (st3, response.response, c + 2)

/-! ## Asset registration -/

/-- One iteration of the `internal_register_assets` loop: create-only
inserts for the balance entry and the custody-sum entry. -/
def register_one (forP : AccountOrDexId) (st : EngineState) (asset_id : AssetId) :
    EngineState :=
  let st1 := match forP with
    | .account a =>
        if (lookupA st.user_balances (a, asset_id)).isNone then
          { st with user_balances := setA st.user_balances (a, asset_id) 0 }
        else st
    | .dex d =>
        if (lookupA st.dex_balances (d, asset_id)).isNone then
          { st with dex_balances := setA st.dex_balances (d, asset_id) 0 }
        else st
  if (lookupA st1.total_in_custody asset_id).isNone then
    { st1 with total_in_custody := setA st1.total_in_custody asset_id 0 }
  else st1

/-- `DexEngine::internal_register_assets`
(src/src/internal_operations.rs:457). -/
def internal_register_assets (env : Env) (asset_ids : List AssetId)
    (forP : Option AccountOrDexId) (storage_payer : AccountId) (st : EngineState) (c : Nat) :
    Except String (EngineState × Nat) :=
  let forP := forP.getD (.account storage_payer)
  let u1 := env.usage c
  let st1 := asset_ids.foldl (register_one forP) st
  let u2 := env.usage (c + 1)
  match sb_charge env.byteCost st1.user_storage_balances storage_payer u1 u2 with
  | .error e => .error e
  | .ok usb => .ok ({ st1 with user_storage_balances := usb }, c + 2)

/-- The `register_assets` public entry point of src/src/lib.rs:459:
after the one-yocto assertion it *unconditionally* inserts a zero balance
for every listed asset (`LookupMap::insert` overwrites) and touches no
custody-sum entry, then charges the byte delta to the predecessor. -/
def register_assets_entry (env : Env) (asset_ids : List AssetId)
    (forP : Option AccountOrDexId) (st : EngineState) (c : Nat) :
    Except String (EngineState × Nat) :=
  if env.attachedDeposit ≠ 1 then
    .error "Requires attached deposit of exactly 1 yoctoNEAR"
  else
    let forP := forP.getD (.account env.predecessor)
    let u1 := env.usage c
    let st1 := asset_ids.foldl (fun st asset_id =>
      match forP with
      | .account a => { st with user_balances := setA st.user_balances (a, asset_id) 0 }
      | .dex d => { st with dex_balances := setA st.dex_balances (d, asset_id) 0 }) st
    let u2 := env.usage (c + 1)
    match sb_charge env.byteCost st1.user_storage_balances env.predecessor u1 u2 with
    | .error e => .error e
    | .ok usb => .ok ({ st1 with user_storage_balances := usb }, c + 2)

/-- `DexEngine::internal_deploy_dex_code`. -/
def internal_deploy_dex_code (env : Env) (last_part_of_id : String) (code : List Nat)
    (deployer : AccountId) (st : EngineState) (c : Nat) :
    Except String (EngineState × Nat) :=
  let dex_id : DexId := ⟨deployer, last_part_of_id⟩
  let u1 := env.usage c
  let st1 := { st with dex_codes := setA st.dex_codes dex_id code }
  let u2 := env.usage (c + 1)
  match sb_charge env.byteCost st1.dex_storage_balances dex_id u1 u2 with
  | .error e => .error e
  | .ok dsb => .ok ({ st1 with dex_storage_balances := dsb }, c + 2)

/-! ## The operation pipeline (src/src/internal_operations.rs) -/

inductive SwapOperationAmount where
  | amount (a : SwapRequestAmount)
  | outputOfLastIn
  | entireBalanceIn
deriving DecidableEq, Repr

inductive Operation where
  | registerAssets (asset_ids : List AssetId) (forP : Option AccountOrDexId)
  | deployDexCode (last_part_of_id : String) (code : List Nat)
  | withdraw (asset_id : AssetId) (amount : Option Nat) (toAcc : Option AccountId)
      (rescue_address : Option AccountId)
  | swapSimple (dex_id : DexId) (message : List Nat) (asset_in asset_out : AssetId)
      (amount : SwapOperationAmount)
  | dexCall (dex_id : DexId) (method : String) (args : List Nat)
      (attached_assets : List (AssetId × Nat))
  | transferAsset (toP : AccountOrDexId) (asset_id : AssetId) (amount : Nat)
  | storageDeposit (amount : Nat) (forP : Option AccountOrDexId)
deriving DecidableEq, Repr

structure ExecState where
  st : EngineState
  sandbox : Option (List (AssetId × Nat))
  lastOutput : Option (AssetId × Nat)
  ctr : Nat
deriving DecidableEq, Repr

/-- One iteration of the `internal_execute_operations` loop. -/
def execOp (env : Env) (by_ : AccountId) (fullyAuthorized : Bool) (es : ExecState)
    (op : Operation) : Except String ExecState :=
  match op with
  | .registerAssets asset_ids forP =>
      if !fullyAuthorized then .error "Operation only available in execute_actions"
      else
        match internal_register_assets env asset_ids forP by_ es.st es.ctr with
        | .error e => .error e
        | .ok (st2, c2) => .ok { es with st := st2, ctr := c2 }
  | .deployDexCode last_part_of_id code =>
      if !fullyAuthorized then .error "Operation only available in execute_actions"
      else
        match internal_deploy_dex_code env last_part_of_id code by_ es.st es.ctr with
        | .error e => .error e
        | .ok (st2, c2) => .ok { es with st := st2, ctr := c2 }
  | .withdraw asset_id amount toAcc rescue_address =>
      match es.sandbox with
      | some assets =>
          match lookupA assets asset_id with
          | none => .error "Asset to withdraw not found in anonymous assets"
          | some bal =>
              let amount := amount.getD bal
              match checked_sub_nat bal amount with
              | none => .error "Not enough balance in anonymous assets"
              | some bal2 =>
                  let assets := setA assets asset_id bal2
                  let rescueE : Except String AccountId :=
                    if asset_is_registered es.st (.account by_) asset_id then .ok by_
                    else
                      match rescue_address with
                      | some r =>
                          match assert_asset_registered es.st (.account r) asset_id with
                          | .error e => .error e
                          | .ok _ => .ok r
                      | none =>
                          .error "No rescue address provided and user has no registered balance"
                  match rescueE with
                  | .error e => .error e
                  | .ok _rescue =>
                      match custody_sub es.st asset_id amount with
                      | .error e => .error e
                      | .ok st2 => .ok { es with st := st2, sandbox := some assets }
      | none =>
          match internal_withdraw es.st asset_id amount toAcc (.account by_) with
          | .error e => .error e
          | .ok (st2, _) => .ok { es with st := st2 }
  | .swapSimple dex_id message asset_in asset_out amount =>
      let amountE : Except String SwapRequestAmount :=
        match amount with
        | .amount a => .ok a
        | .outputOfLastIn =>
            match es.lastOutput with
            | some (lastAssetOut, amt) =>
                if lastAssetOut = asset_in then .ok (.exactIn amt)
                else .error
                  "Amount can only be omitted if the last swap asset out matches the current asset in"
            | none => .error "Amount is required for first SwapSimple operation"
        | .entireBalanceIn =>
            match es.sandbox with
            | some assets =>
                match lookupA assets asset_in with
                | none => .error "Asset in not found in anonymous assets"
                | some b => .ok (.exactIn b)
            | none => .ok (.exactIn ((asset_balance_of es.st (.account by_) asset_in).getD 0))
      match amountE with
      | .error e => .error e
      | .ok amount2 =>
          let trader := match es.sandbox with
            | some assets => TradeAccount.sandboxed assets by_
            | none => TradeAccount.user by_
          match internal_swap_simple env dex_id message asset_in asset_out amount2 trader
              es.st es.ctr with
          | .error e => .error e
          | .ok r =>
              let sandbox2 := match r.trader with
                | .sandboxed assets _ => some assets
                | .user _ => es.sandbox
              .ok { st := r.st, sandbox := sandbox2,
                    lastOutput := some (asset_out, r.amount_out), ctr := r.ctr }
  | .dexCall dex_id method args attached_assets =>
      if !fullyAuthorized then .error "Operation only available in execute_actions"
      else
        match internal_dex_call env dex_id method args attached_assets by_ es.st es.ctr with
        | .error e => .error e
        | .ok (st2, _, c2) => .ok { es with st := st2, ctr := c2 }
  | .transferAsset toP asset_id amount =>
      match es.sandbox with
      | some assets =>
          match lookupA assets asset_id with
          | none => .error "Asset to transfer not found in anonymous assets"
          | some bal =>
              match checked_sub_nat bal amount with
              | none => .error "Not enough balance in anonymous assets"
              | some bal2 =>
                  match internal_increase_assets es.st toP asset_id amount with
                  | .error e => .error e
                  | .ok st2 =>
                      .ok { es with st := st2, sandbox := some (setA assets asset_id bal2) }
      | none =>
          match internal_transfer_asset es.st (.account by_) toP asset_id amount with
          | .error e => .error e
          | .ok st2 => .ok { es with st := st2 }
  | .storageDeposit amount forP =>
      let sandboxE : Except String (Option (List (AssetId × Nat))) :=
        match es.sandbox with
        | some assets =>
            match lookupA assets .near with
            | none => .error "Near balance not found in anonymous assets"
            | some bal =>
                match checked_sub_nat bal amount with
                | none => .error "Not enough near balance in anonymous assets"
                | some bal2 => .ok (some (setA assets .near bal2))
        | none => .ok none
      match sandboxE with
      | .error e => .error e
      | .ok sandbox2 =>
          let u1 := env.usage es.ctr
          let u2 := env.usage (es.ctr + 1)
          match forP with
          | some (.account account) =>
              match sb_storage_deposit env.byteCost es.st.user_storage_balances account
                  amount (some false) u1 u2 with
              | .error e => .error e
              | .ok usb =>
                  let st2 := { es.st with user_storage_balances := usb }
                  .ok { es with st := st2, sandbox := sandbox2, ctr := es.ctr + 2 }
          | some (.dex dex_id) =>
              match sb_storage_deposit env.byteCost es.st.dex_storage_balances dex_id
                  amount (some false) u1 u2 with
              | .error e => .error e
              | .ok dsb =>
                  let st2 := { es.st with dex_storage_balances := dsb }
                  .ok { es with st := st2, sandbox := sandbox2, ctr := es.ctr + 2 }
          | none => .error "for is required for StorageDeposit operation"

def internal_execute_operations_core (env : Env) (by_ : AccountId) (fullyAuthorized : Bool) :
    List Operation → ExecState → Except String ExecState
  | [], es => .ok es
  | op :: rest, es =>
      match execOp env by_ fullyAuthorized es op with
      | .error e => .error e
      | .ok es2 => internal_execute_operations_core env by_ fullyAuthorized rest es2

/-- `DexEngine::internal_execute_operations`: run the operation list, then
require every remaining sandboxed asset amount to be zero. -/
def internal_execute_operations (env : Env) (ops : List Operation) (by_ : AccountId)
    (sandbox0 : Option (List (AssetId × Nat))) (st : EngineState) (c : Nat) :
    Except String (EngineState × Nat) :=
  let fullyAuthorized := sandbox0.isNone
  match internal_execute_operations_core env by_ fullyAuthorized ops ⟨st, sandbox0, none, c⟩ with
  | .error e => .error e
  | .ok es =>
      match es.sandbox with
      | some assets =>
          if assets.all (fun kv => kv.2 = 0) then .ok (es.st, es.ctr)
          else .error "Sandboxed assets must be empty after execution"
      | none => .ok (es.st, es.ctr)

/-! ## Deposit entry points (src/src/asset_deposit.rs)

The JSON parsing of `msg` is external serialization; the parsed
`operations` option is taken as an argument. -/

def deposit_near (env : Env) (operations : Option (List Operation)) (st : EngineState)
    (c : Nat) : Except String (EngineState × Nat) :=
  let deposit := env.attachedDeposit
  match custody_add st .near deposit with
  | .error e => .error e
  | .ok st2 =>
      match operations with
      | some ops =>
          internal_execute_operations env ops env.predecessor (some [(.near, deposit)]) st2 c
      | none =>
          match internal_increase_assets st2 (.account env.predecessor) .near
              env.attachedDeposit with
          | .error e => .error e
          | .ok st3 => .ok (st3, c)

def ft_on_transfer (env : Env) (sender_id : AccountId) (amount : Nat)
    (operations : Option (List Operation)) (st : EngineState) (c : Nat) :
    Except String (EngineState × Nat) :=
  let contract_id := env.predecessor
  match custody_add st (.nep141 contract_id) amount with
  | .error e => .error e
  | .ok st2 =>
      match operations with
      | some ops =>
          internal_execute_operations env ops sender_id
            (some [(.nep141 contract_id, amount)]) st2 c
      | none =>
          match internal_increase_assets st2 (.account sender_id) (.nep141 contract_id)
              amount with
          | .error e => .error e
          | .ok st3 => .ok (st3, c)

def nft_on_transfer (env : Env) (sender_id previous_owner_id : AccountId) (token_id : String)
    (operations : Option (List Operation)) (st : EngineState) (c : Nat) :
    Except String (EngineState × Nat) :=
  let contract_id := env.predecessor
  let opsCheck : Except String Unit :=
    match operations with
    | some _ =>
        if sender_id ≠ previous_owner_id then
          .error "Only the previous owner can execute operations on behalf of the previous owner"
        else .ok ()
    | none => .ok ()
  match opsCheck with
  | .error e => .error e
  | .ok _ =>
      match custody_add st (.nep171 contract_id token_id) 1 with
      | .error e => .error e
      | .ok st2 =>
          match operations with
          | some ops =>
              internal_execute_operations env ops previous_owner_id
                (some [(.nep171 contract_id token_id, 1)]) st2 c
          | none =>
              match internal_increase_assets st2 (.account previous_owner_id)
                  (.nep171 contract_id token_id) 1 with
              | .error e => .error e
              | .ok st3 => .ok (st3, c)

/-- The per-token custody-update loop of `mt_on_transfer`. -/
def custody_add_list (contract_id : AccountId) :
    List (String × Nat) → EngineState → Except String EngineState
  | [], st => .ok st
  | kv :: rest, st =>
      match custody_add st (.nep245 contract_id kv.1) kv.2 with
      | .error e => .error e
      | .ok st2 => custody_add_list contract_id rest st2

/-- The per-element credit loop of `mt_on_transfer` (no-operations path). -/
def mt_increase_list (contract_id : AccountId) :
    List ((String × AccountId) × Nat) → EngineState → Except String EngineState
  | [], st => .ok st
  | kv :: rest, st =>
      match internal_increase_assets st (.account kv.1.2) (.nep245 contract_id kv.1.1)
          kv.2 with
      | .error e => .error e
      | .ok st2 => mt_increase_list contract_id rest st2

def mt_on_transfer (env : Env) (sender_id : AccountId) (previous_owner_ids : List AccountId)
    (token_ids : List String) (amounts : List Nat) (operations : Option (List Operation))
    (st : EngineState) (c : Nat) : Except String (EngineState × Nat) :=
  let contract_id := env.predecessor
  if ¬(previous_owner_ids.length = token_ids.length ∧
      previous_owner_ids.length = amounts.length) then
    .error "Invalid input array lengths"
  else
    let opsCheck : Except String Unit :=
      match operations with
      | some _ =>
          if previous_owner_ids.all (fun o => o = sender_id) then .ok ()
          else
            .error "Only the previous owner can execute operations on behalf of the previous owner"
      | none => .ok ()
    match opsCheck with
    | .error e => .error e
    | .ok _ =>
        match custody_add_list contract_id (token_ids.zip amounts) st with
        | .error e => .error e
        | .ok st2 =>
            match operations with
            | some ops =>
                internal_execute_operations env ops sender_id
                  (some ((token_ids.zip amounts).foldl
                    (fun m kv => setA m (.nep245 contract_id kv.1) kv.2) [])) st2 c
            | none =>
                match mt_increase_list contract_id
                    ((token_ids.zip previous_owner_ids).zip amounts) st2 with
                | .error e => .error e
                | .ok st3 => .ok (st3, c)

/-! ## WASM runner context (src/src/lib.rs `RunnerData`,
src/src/host_functions.rs) -/

structure RunnerData where
  request : List Nat
  response : Option (List Nat)
  registers : List (Nat × List Nat)
  dex_storage : List ((DexId × List Nat) × List Nat)
  predecessor_id : AccountId
  dex_id : DexId
  dex_storage_balances : StorageBalances DexId
  dex_storage_usage_before_transaction : Nat
deriving DecidableEq, Repr

def utf8_bytes (s : String) : List Nat :=
  s.toUTF8.toList.map (fun b => b.toNat)

/-- `host_functions::predecessor_account_id`
(src/src/host_functions.rs:329): writes the UTF-8 bytes of the stored
predecessor id into the register.  It has no failure path. -/
def host_predecessor_account_id (rd : RunnerData) (register_id : Nat) :
    Except String RunnerData :=
  .ok { rd with registers := setA rd.registers register_id (utf8_bytes rd.predecessor_id) }

/-- The `RunnerData` constructed by `swap_one_dex` (src/src/lib.rs:194):
the Trade context, whose `predecessor_id` is the trader. -/
def swap_runner_data (trader : AccountId) (dex_id : DexId) (request : List Nat)
    (dex_storage : List ((DexId × List Nat) × List Nat))
    (dex_storage_balances : StorageBalances DexId) (usage_before : Nat) : RunnerData :=
  { request := request
    response := none
    registers := []
    dex_storage := dex_storage
    predecessor_id := trader
    dex_id := dex_id
    dex_storage_balances := dex_storage_balances
    dex_storage_usage_before_transaction := usage_before }

/-! ## Theorems: swap response validation (C4) -/

theorem swap_amounts_checked (env : Env) (dex_id : DexId) (message : List Nat)
    (asset_in asset_out : AssetId) (amount : SwapRequestAmount) (trader : TradeAccount)
    (st : EngineState) (c : Nat) (res : SwapResult)
    (hok : internal_swap_simple env dex_id message asset_in asset_out amount trader st c =
      .ok res) :
    checkSwapAmounts amount ⟨res.amount_in, res.amount_out⟩ = .ok () := by
  unfold internal_swap_simple at hok
  dsimp only at hok
  split at hok
  · exact absurd hok (by simp)
  · split at hok
    · exact absurd hok (by simp)
    · rename_i response dexStorage2 hresp
      split at hok
      · exact absurd hok (by simp)
      · split at hok
        · exact absurd hok (by simp)
        · rename_i u hcheck
          split at hok
          · rename_i user
            split at hok
            · exact absurd hok (by simp)
            · split at hok
              · exact absurd hok (by simp)
              · cases hok
                cases u
                simpa using hcheck
          · rename_i assets alleged
            split at hok
            · exact absurd hok (by simp)
            · split at hok
              · exact absurd hok (by simp)
              · split at hok
                · exact absurd hok (by simp)
                · split at hok
                  · exact absurd hok (by simp)
                  · split at hok
                    · exact absurd hok (by simp)
                    · cases hok
                      cases u
                      simpa using hcheck

/-- Claim C4: Swap response validation.  `ExactIn(x)` succeeds only when
the tenant response has `amount_in = x`, `ExactOut(y)` only when
`amount_out = y`; in each case the other field of the response is not
constrained (the validation is exactly an equality test on the pinned
field). -/
theorem c4_swap_response_validation :
    (∀ (x : Nat) (r : SwapResponse),
        checkSwapAmounts (.exactIn x) r = .ok () ↔ r.amount_in = x) ∧
    (∀ (y : Nat) (r : SwapResponse),
        checkSwapAmounts (.exactOut y) r = .ok () ↔ r.amount_out = y) ∧
    (∀ (env : Env) (dex_id : DexId) (message : List Nat) (asset_in asset_out : AssetId)
        (x : Nat) (trader : TradeAccount) (st : EngineState) (c : Nat) (res : SwapResult),
        internal_swap_simple env dex_id message asset_in asset_out (.exactIn x) trader st c =
          .ok res → res.amount_in = x) ∧
    (∀ (env : Env) (dex_id : DexId) (message : List Nat) (asset_in asset_out : AssetId)
        (y : Nat) (trader : TradeAccount) (st : EngineState) (c : Nat) (res : SwapResult),
        internal_swap_simple env dex_id message asset_in asset_out (.exactOut y) trader st c =
          .ok res → res.amount_out = y) := by
  refine ⟨?_, ?_, ?_, ?_⟩
  · intro x r
    unfold checkSwapAmounts
    constructor
    · intro h
      by_contra hne
      simp [Ne.symm hne] at h
    · intro h
      simp [h]
  · intro y r
    unfold checkSwapAmounts
    constructor
    · intro h
      by_contra hne
      simp [Ne.symm hne] at h
    · intro h
      simp [h]
  · intro env dex_id message asset_in asset_out x trader st c res hok
    have h := swap_amounts_checked env dex_id message asset_in asset_out (.exactIn x)
      trader st c res hok
    unfold checkSwapAmounts at h
    by_contra hne
    simp [Ne.symm hne] at h
  · intro env dex_id message asset_in asset_out y trader st c res hok
    have h := swap_amounts_checked env dex_id message asset_in asset_out (.exactOut y)
      trader st c res hok
    unfold checkSwapAmounts at h
    by_contra hne
    simp [Ne.symm hne] at h

/-- A minimal environment used by concrete runs: zero byte cost, constant
storage-usage readings, a tenant whose swap answer is always
`(0, 0)` and which never answers calls. -/
def envTrivial : Env :=
  { predecessor := "alice"
    attachedDeposit := 0
    byteCost := 0
    usage := fun _ => 0
    swapResponder := fun _ _ stor => some (⟨0, 0⟩, stor)
    callResponder := fun _ _ _ _ _ => none }

/-- A state holding only the code entry for the dex `bob/d`. -/
def stOneDex : EngineState :=
  { dex_balances := []
    dex_storage := []
    dex_codes := [(⟨"bob", "d"⟩, [])]
    dex_storage_balances := []
    user_balances := []
    user_storage_balances := []
    total_in_custody := [] }

/-- Witness for C4: the `ExactIn` conjunct applied to a concrete
successful zero-amount swap. -/
theorem c4_swap_response_validation_witness :
    (SwapResult.mk stOneDex (.user "alice") 0 0 2).amount_in = 0 :=
  c4_swap_response_validation.2.2.1 envTrivial ⟨"bob", "d"⟩ [] .near .near 0 (.user "alice")
    stOneDex 0 (SwapResult.mk stOneDex (.user "alice") 0 0 2) rfl

/-! ## Theorems: predecessor_account_id per context (C9) -/

/-- Counterexample to C9 as stated: invoked on the `RunnerData` that
`swap_one_dex` builds for a Trade invocation, `predecessor_account_id`
does not fail; it succeeds and writes the trader id into the register. -/
theorem c9_predecessor_counterexample :
    host_predecessor_account_id (swap_runner_data "alice" ⟨"bob", "d"⟩ [] [] [] 0) 0 =
      .ok { swap_runner_data "alice" ⟨"bob", "d"⟩ [] [] [] 0 with
            registers := [(0, utf8_bytes "alice")] } := rfl

/-- Claim C9 (amended): `predecessor_account_id` never fails; in every
context, including the Trade context built by `swap_one_dex` (whose
stored predecessor is the trader), it writes the UTF-8 bytes of the
stored predecessor id into the requested register. -/
theorem c9_predecessor_amended :
    (∀ (rd : RunnerData) (register_id : Nat), ∃ rd2,
        host_predecessor_account_id rd register_id = .ok rd2 ∧
        lookupA rd2.registers register_id = some (utf8_bytes rd.predecessor_id)) ∧
    (∀ (trader : AccountId) (dex_id : DexId) (request : List Nat)
        (ds : List ((DexId × List Nat) × List Nat)) (dsb : StorageBalances DexId)
        (u : Nat) (register_id : Nat), ∃ rd2,
        host_predecessor_account_id (swap_runner_data trader dex_id request ds dsb u)
          register_id = .ok rd2 ∧
        lookupA rd2.registers register_id = some (utf8_bytes trader)) := by
  constructor
  · intro rd register_id
    refine ⟨_, rfl, ?_⟩
    simp [host_predecessor_account_id, lookupA_setA_self]
  · intro trader dex_id request ds dsb u register_id
    refine ⟨_, rfl, ?_⟩
    simp [host_predecessor_account_id, swap_runner_data, lookupA_setA_self]

/-! ## Theorems: OutputOfPreviousSwap chaining (C7) -/

/-- Counterexample to C7 as stated: a pipeline whose middle operation is a
`TransferAsset` (not a `SwapSimple`) still resolves the following
`OutputOfPreviousSwap`, because `last_output` is only updated by swaps and
is not reset by intervening operations.  The claim says such a pipeline
fails; it succeeds. -/
theorem c7_chaining_counterexample :
    (internal_execute_operations envTrivial
      [.swapSimple ⟨"bob", "d"⟩ [] .near (.nep141 "t") (.amount (.exactIn 0)),
       .transferAsset (.account "carol") (.nep141 "u") 0,
       .swapSimple ⟨"bob", "d"⟩ [] (.nep141 "t") (.nep141 "v") .outputOfLastIn]
      "alice" none stOneDex 0).isOk = true := rfl

/-- Claim C7 (amended): a `SwapSimple` whose amount is
`OutputOfPreviousSwap` fails when no swap has executed yet, fails when the
most recent swap's `asset_out` differs from the current `asset_in`, and
otherwise executes exactly as `ExactIn` of the most recent swap's
`amount_out` — the remembered output being that of the most recent
`SwapSimple`, not necessarily of the immediately preceding operation; and
every successful `SwapSimple` records its `(asset_out, amount_out)` as the
remembered output. -/
theorem c7_output_of_previous_swap :
    (∀ (env : Env) (by_ : AccountId) (fa : Bool) (es : ExecState) (d : DexId)
        (msg : List Nat) (aIn aOut : AssetId),
        es.lastOutput = none →
        execOp env by_ fa es (.swapSimple d msg aIn aOut .outputOfLastIn) =
          .error "Amount is required for first SwapSimple operation") ∧
    (∀ (env : Env) (by_ : AccountId) (fa : Bool) (es : ExecState) (d : DexId)
        (msg : List Nat) (aIn aOut b : AssetId) (amt : Nat),
        es.lastOutput = some (b, amt) → b ≠ aIn →
        execOp env by_ fa es (.swapSimple d msg aIn aOut .outputOfLastIn) =
          .error
            "Amount can only be omitted if the last swap asset out matches the current asset in") ∧
    (∀ (env : Env) (by_ : AccountId) (fa : Bool) (es : ExecState) (d : DexId)
        (msg : List Nat) (aIn aOut : AssetId) (amt : Nat),
        es.lastOutput = some (aIn, amt) →
        execOp env by_ fa es (.swapSimple d msg aIn aOut .outputOfLastIn) =
          execOp env by_ fa es (.swapSimple d msg aIn aOut (.amount (.exactIn amt)))) ∧
    (∀ (env : Env) (by_ : AccountId) (fa : Bool) (es : ExecState) (d : DexId)
        (msg : List Nat) (aIn aOut : AssetId) (amtop : SwapOperationAmount)
        (es2 : ExecState),
        execOp env by_ fa es (.swapSimple d msg aIn aOut amtop) = .ok es2 →
        ∃ amt, es2.lastOutput = some (aOut, amt)) := by
  refine ⟨?_, ?_, ?_, ?_⟩
  · intro env by_ fa es d msg aIn aOut h
    simp [execOp, h]
  · intro env by_ fa es d msg aIn aOut b amt h hne
    simp [execOp, h, hne]
  · intro env by_ fa es d msg aIn aOut amt h
    simp [execOp, h]
  · intro env by_ fa es d msg aIn aOut amtop es2 hok
    unfold execOp at hok
    dsimp only at hok
    split at hok
    · exact absurd hok (by simp)
    · split at hok
      · exact absurd hok (by simp)
      · rename_i r hr
        cases hok
        exact ⟨r.amount_out, rfl⟩

/-- Witness for C7's amended theorem: the resolution conjunct applied at a
concrete mid-pipeline state. -/
theorem c7_output_of_previous_swap_witness :
    execOp envTrivial "alice" true
        ⟨stOneDex, none, some (.nep141 "t", 0), 2⟩
        (.swapSimple ⟨"bob", "d"⟩ [] (.nep141 "t") (.nep141 "v") .outputOfLastIn) =
      execOp envTrivial "alice" true
        ⟨stOneDex, none, some (.nep141 "t", 0), 2⟩
        (.swapSimple ⟨"bob", "d"⟩ [] (.nep141 "t") (.nep141 "v")
          (.amount (.exactIn 0))) :=
  c7_output_of_previous_swap.2.2.1 envTrivial "alice" true
    ⟨stOneDex, none, some (.nep141 "t", 0), 2⟩ ⟨"bob", "d"⟩ [] (.nep141 "t") (.nep141 "v")
    0 rfl

/-! ## Theorems: sandboxed zero-residue (C5) -/

theorem execOp_sandbox_isSome (env : Env) (by_ : AccountId) (fa : Bool) (es : ExecState)
    (op : Operation) (es2 : ExecState) (h : execOp env by_ fa es op = .ok es2)
    (hs : es.sandbox.isSome) : es2.sandbox.isSome := by
  cases op with
  | registerAssets ids forP =>
      unfold execOp at h
      dsimp only at h
      repeat' split at h
      all_goals cases h
      all_goals exact hs
  | deployDexCode lp code =>
      unfold execOp at h
      dsimp only at h
      repeat' split at h
      all_goals cases h
      all_goals exact hs
  | dexCall d method args attached =>
      unfold execOp at h
      dsimp only at h
      repeat' split at h
      all_goals cases h
      all_goals exact hs
  | withdraw asset_id amount toAcc rescue_address =>
      unfold execOp at h
      dsimp only at h
      repeat' split at h
      all_goals cases h
      all_goals first | exact hs | rfl
  | transferAsset toP asset_id amount =>
      unfold execOp at h
      dsimp only at h
      repeat' split at h
      all_goals cases h
      all_goals first | exact hs | rfl
  | swapSimple d msg aIn aOut amtop =>
      unfold execOp at h
      dsimp only at h
      split at h
      · exact absurd h (by simp)
      · split at h
        · exact absurd h (by simp)
        · rename_i r hr
          cases h
          show (match r.trader with
            | TradeAccount.sandboxed assets _ => some assets
            | TradeAccount.user _ => es.sandbox).isSome = true
          cases r.trader with
          | user u => exact hs
          | sandboxed assets alleged => rfl
  | storageDeposit amount forP =>
      unfold execOp at h
      dsimp only at h
      split at h
      · exact absurd h (by simp)
      · rename_i sandbox2 hsb
        have hsome : sandbox2.isSome := by
          split at hsb
          · rename_i assets hsand
            split at hsb
            · exact absurd hsb (by simp)
            · split at hsb
              · exact absurd hsb (by simp)
              · cases hsb
                simp
          · rename_i hsand
            rw [hsand] at hs
            simp at hs
        repeat' split at h
        all_goals cases h
        all_goals simpa using hsome

theorem core_sandbox_isSome (env : Env) (by_ : AccountId) (fa : Bool) (ops : List Operation) :
    ∀ (es es2 : ExecState),
      internal_execute_operations_core env by_ fa ops es = .ok es2 →
      es.sandbox.isSome → es2.sandbox.isSome := by
  induction ops with
  | nil =>
      intro es es2 h hs
      unfold internal_execute_operations_core at h
      cases h
      exact hs
  | cons op rest ih =>
      intro es es2 h hs
      unfold internal_execute_operations_core at h
      split at h
      · exact absurd h (by simp)
      · rename_i esMid hx
        exact ih esMid es2 h (execOp_sandbox_isSome env by_ fa es op esMid hx hs)

/-- Claim C5: Sandboxed zero-residue.  A successful sandboxed pipeline run
leaves only zero amounts in the sandboxed asset map, and a run whose
operations leave a non-zero remainder fails with the residue error. -/
theorem c5_sandboxed_zero_residue :
    (∀ (env : Env) (ops : List Operation) (by_ : AccountId)
        (sandbox0 : List (AssetId × Nat)) (st : EngineState) (c : Nat)
        (out : EngineState × Nat) (es : ExecState) (assets : List (AssetId × Nat)),
        internal_execute_operations env ops by_ (some sandbox0) st c = .ok out →
        internal_execute_operations_core env by_ false ops ⟨st, some sandbox0, none, c⟩ =
          .ok es →
        es.sandbox = some assets →
        ∀ kv ∈ assets, kv.2 = 0) ∧
    (∀ (env : Env) (ops : List Operation) (by_ : AccountId)
        (sandbox0 : List (AssetId × Nat)) (st : EngineState) (c : Nat) (es : ExecState)
        (assets : List (AssetId × Nat)) (kv : AssetId × Nat),
        internal_execute_operations_core env by_ false ops ⟨st, some sandbox0, none, c⟩ =
          .ok es →
        es.sandbox = some assets → kv ∈ assets → kv.2 ≠ 0 →
        internal_execute_operations env ops by_ (some sandbox0) st c =
          .error "Sandboxed assets must be empty after execution") := by
  constructor
  · intro env ops by_ sandbox0 st c out es assets hok hcore hsand kv hkv
    unfold internal_execute_operations at hok
    dsimp only [Option.isNone] at hok
    rw [hcore] at hok
    dsimp only at hok
    rw [hsand] at hok
    dsimp only at hok
    split at hok
    · rename_i hall
      exact of_decide_eq_true (List.all_eq_true.mp hall kv hkv)
    · exact absurd hok (by simp)
  · intro env ops by_ sandbox0 st c es assets kv hcore hsand hkv hne
    unfold internal_execute_operations
    dsimp only [Option.isNone]
    rw [hcore]
    dsimp only
    rw [hsand]
    dsimp only
    have hall : assets.all (fun kv => kv.2 = 0) = false := by
      by_contra hcon
      have : assets.all (fun kv => kv.2 = 0) = true := by
        cases h2 : assets.all (fun kv => kv.2 = 0)
        · exact absurd h2 hcon
        · rfl
      exact hne (of_decide_eq_true (List.all_eq_true.mp this kv hkv))
    rw [hall]
    rfl

/-- Witness for C5: the zero-residue conjunct applied to the empty
operation list with a zero-amount sandbox entry. -/
theorem c5_sandboxed_zero_residue_witness :
    ((AssetId.near, (0 : Nat))).2 = 0 :=
  c5_sandboxed_zero_residue.1 envTrivial [] "alice" [(.near, 0)] stOneDex 0 (stOneDex, 0)
    ⟨stOneDex, some [(.near, 0)], none, 0⟩ [(.near, 0)] rfl rfl rfl (.near, 0) (by simp)

/-! ## Theorems: deposits never auto-create custody entries (C10) -/

theorem custody_add_none_err (st : EngineState) (a : AssetId) (amount : Nat)
    (h : lookupA st.total_in_custody a = none) :
    custody_add st a amount =
      .error "Failed to deposit assets to contract tracked balance: asset not registered" := by
  unfold custody_add
  rw [h]

theorem custody_add_ok (st st2 : EngineState) (a : AssetId) (amount : Nat)
    (h : custody_add st a amount = .ok st2) :
    ∃ b, lookupA st.total_in_custody a = some b ∧
      st2 = { st with total_in_custody := setA st.total_in_custody a (b + amount) } := by
  unfold custody_add at h
  split at h
  · exact absurd h (by simp)
  · rename_i b hb
    split at h
    · exact absurd h (by simp)
    · rename_i b2 hb2
      have hb2v : b2 = b + amount := by
        unfold checked_add_u128 at hb2
        split at hb2
        · cases hb2; rfl
        · cases hb2
      cases h
      exact ⟨b, hb, by rw [hb2v]⟩

theorem custody_add_preserves_none (st st2 : EngineState) (a b : AssetId) (amount : Nat)
    (h : custody_add st b amount = .ok st2) (ha : lookupA st.total_in_custody a = none) :
    lookupA st2.total_in_custody a = none := by
  obtain ⟨bb, hbb, hsteq⟩ := custody_add_ok st st2 b amount h
  by_cases hab : b = a
  · subst hab
    rw [hbb] at ha
    cases ha
  · rw [hsteq]
    show lookupA (setA st.total_in_custody b (bb + amount)) a = none
    rw [lookupA_setA_ne _ _ _ _ hab]
    exact ha

theorem increase_assets_custody (st st2 : EngineState) (who : AccountOrDexId) (a : AssetId)
    (amount : Nat) (h : internal_increase_assets st who a amount = .ok st2) :
    st2.total_in_custody = st.total_in_custody := by
  unfold internal_increase_assets at h
  repeat' split at h
  all_goals cases h
  all_goals rfl

theorem custody_add_list_err (contract_id : AccountId) (tok : String) (amt : Nat) :
    ∀ (l : List (String × Nat)) (st : EngineState), (tok, amt) ∈ l →
      lookupA st.total_in_custody (.nep245 contract_id tok) = none →
      (custody_add_list contract_id l st).isOk = false := by
  intro l
  induction l with
  | nil =>
      intro st hmem
      cases hmem
  | cons kv rest ih =>
      intro st hmem hnone
      unfold custody_add_list
      rcases List.mem_cons.mp hmem with hkv | hkv
      · subst hkv
        dsimp only
        rw [custody_add_none_err st _ amt hnone]
        rfl
      · cases hc : custody_add st (.nep245 contract_id kv.1) kv.2 with
        | error e => rfl
        | ok stMid =>
            exact ih stMid hkv (custody_add_preserves_none st stMid _ _ _ hc hnone)

/-- Claim C10: Deposits never auto-create custody entries.  Every deposit
entry point fails when the deposited asset has no existing custody-sum
entry, and on success the (already existing) custody entry is increased by
exactly the deposited amount. -/
theorem c10_no_custody_autocreate :
    (∀ (env : Env) (ops : Option (List Operation)) (st : EngineState) (c : Nat),
        lookupA st.total_in_custody .near = none →
        deposit_near env ops st c =
          .error "Failed to deposit assets to contract tracked balance: asset not registered") ∧
    (∀ (env : Env) (sender : AccountId) (amount : Nat) (ops : Option (List Operation))
        (st : EngineState) (c : Nat),
        lookupA st.total_in_custody (.nep141 env.predecessor) = none →
        ft_on_transfer env sender amount ops st c =
          .error "Failed to deposit assets to contract tracked balance: asset not registered") ∧
    (∀ (env : Env) (sender owner : AccountId) (token_id : String)
        (ops : Option (List Operation)) (st : EngineState) (c : Nat),
        lookupA st.total_in_custody (.nep171 env.predecessor token_id) = none →
        (nft_on_transfer env sender owner token_id ops st c).isOk = false) ∧
    (∀ (env : Env) (sender : AccountId) (owners : List AccountId) (token_ids : List String)
        (amounts : List Nat) (ops : Option (List Operation)) (st : EngineState) (c : Nat)
        (tok : String) (amt : Nat),
        (tok, amt) ∈ token_ids.zip amounts →
        lookupA st.total_in_custody (.nep245 env.predecessor tok) = none →
        (mt_on_transfer env sender owners token_ids amounts ops st c).isOk = false) ∧
    (∀ (env : Env) (st : EngineState) (c : Nat) (st2 : EngineState) (c2 : Nat),
        deposit_near env none st c = .ok (st2, c2) →
        ∃ b, lookupA st.total_in_custody .near = some b ∧
          lookupA st2.total_in_custody .near = some (b + env.attachedDeposit)) ∧
    (∀ (env : Env) (sender : AccountId) (amount : Nat) (st : EngineState) (c : Nat)
        (st2 : EngineState) (c2 : Nat),
        ft_on_transfer env sender amount none st c = .ok (st2, c2) →
        ∃ b, lookupA st.total_in_custody (.nep141 env.predecessor) = some b ∧
          lookupA st2.total_in_custody (.nep141 env.predecessor) = some (b + amount)) ∧
    (∀ (env : Env) (sender owner : AccountId) (token_id : String) (st : EngineState)
        (c : Nat) (st2 : EngineState) (c2 : Nat),
        nft_on_transfer env sender owner token_id none st c = .ok (st2, c2) →
        ∃ b, lookupA st.total_in_custody (.nep171 env.predecessor token_id) = some b ∧
          lookupA st2.total_in_custody (.nep171 env.predecessor token_id) = some (b + 1)) := by
  refine ⟨?_, ?_, ?_, ?_, ?_, ?_, ?_⟩
  · intro env ops st c h
    unfold deposit_near
    dsimp only
    rw [custody_add_none_err st .near env.attachedDeposit h]
  · intro env sender amount ops st c h
    unfold ft_on_transfer
    dsimp only
    rw [custody_add_none_err st (.nep141 env.predecessor) amount h]
  · intro env sender owner token_id ops st c h
    cases ops with
    | some l =>
        unfold nft_on_transfer
        dsimp only
        split
        · rfl
        · rw [custody_add_none_err st (.nep171 env.predecessor token_id) 1 h]
          rfl
    | none =>
        unfold nft_on_transfer
        dsimp only
        rw [custody_add_none_err st (.nep171 env.predecessor token_id) 1 h]
        rfl
  · intro env sender owners token_ids amounts ops st c tok amt hmem h
    have herr := custody_add_list_err env.predecessor tok amt (token_ids.zip amounts) st
      hmem h
    unfold mt_on_transfer
    dsimp only
    split
    · rfl
    · split
      · rfl
      · cases hc : custody_add_list env.predecessor (token_ids.zip amounts) st with
        | error e => rfl
        | ok stMid =>
            rw [hc] at herr
            exact Bool.noConfusion herr
  · intro env st c st2 c2 hok
    unfold deposit_near at hok
    dsimp only at hok
    split at hok
    · exact absurd hok (by simp)
    · rename_i stc hc
      split at hok
      · exact absurd hok (by simp)
      · rename_i st3 hinc
        cases hok
        obtain ⟨b, hb, hsteq⟩ := custody_add_ok st stc .near env.attachedDeposit hc
        refine ⟨b, hb, ?_⟩
        rw [increase_assets_custody _ _ _ _ _ hinc, hsteq]
        exact lookupA_setA_self _ _ _
  · intro env sender amount st c st2 c2 hok
    unfold ft_on_transfer at hok
    dsimp only at hok
    split at hok
    · exact absurd hok (by simp)
    · rename_i stc hc
      split at hok
      · exact absurd hok (by simp)
      · rename_i st3 hinc
        cases hok
        obtain ⟨b, hb, hsteq⟩ := custody_add_ok st stc (.nep141 env.predecessor) amount hc
        refine ⟨b, hb, ?_⟩
        rw [increase_assets_custody _ _ _ _ _ hinc, hsteq]
        exact lookupA_setA_self _ _ _
  · intro env sender owner token_id st c st2 c2 hok
    unfold nft_on_transfer at hok
    dsimp only at hok
    split at hok
    · exact absurd hok (by simp)
    · rename_i stc hc
      split at hok
      · exact absurd hok (by simp)
      · rename_i st3 hinc
        cases hok
        obtain ⟨b, hb, hsteq⟩ := custody_add_ok st stc (.nep171 env.predecessor token_id)
          1 hc
        refine ⟨b, hb, ?_⟩
        rw [increase_assets_custody _ _ _ _ _ hinc, hsteq]
        exact lookupA_setA_self _ _ _

/-- Witness for C10: the `deposit_near` conjunct applied at a state whose
custody map has no NEAR entry. -/
theorem c10_no_custody_autocreate_witness :
    deposit_near envTrivial none stOneDex 0 =
      .error "Failed to deposit assets to contract tracked balance: asset not registered" :=
  c10_no_custody_autocreate.1 envTrivial none stOneDex 0 rfl

/-! ## Theorems: registration is create-only (C8) -/

/-- Environment for the registration runs: one yocto attached, constant
storage-usage readings. -/
def envOneYocto : Env :=
  { predecessor := "alice"
    attachedDeposit := 1
    byteCost := 0
    usage := fun _ => 0
    swapResponder := fun _ _ _ => none
    callResponder := fun _ _ _ _ _ => none }

/-- A state in which alice already holds 100 units of the fungible token
`token` and the custody map has no entry yet for it. -/
def stAliceHolds : EngineState :=
  { dex_balances := []
    dex_storage := []
    dex_codes := []
    dex_storage_balances := []
    user_balances := [(("alice", .nep141 "token"), 100)]
    user_storage_balances := []
    total_in_custody := [] }

/-- Claim C8, evaluated at the failing input.  The pipeline's
`internal_register_assets` is create-only as the claim states: it leaves
alice's existing balance of 100 unchanged and creates the missing
custody-sum entry.  The `register_assets` entry point of src/src/lib.rs,
however, overwrites alice's existing balance entry with 0 (stranding the
100 units) and creates no custody-sum entry — contradicting the claim, the
`Operation::RegisterAssets` documentation ("No-op if assets are already
registered"), and the integration tests (which `register_assets` and then
successfully `deposit_near`, impossible without the custody entry). -/
theorem c8_register_assets_entry_divergence :
    (internal_register_assets envOneYocto [.nep141 "token"] (some (.account "alice"))
        "alice" stAliceHolds 0).map
        (fun p => (lookupA p.1.user_balances ("alice", .nep141 "token"),
                   lookupA p.1.total_in_custody (.nep141 "token"))) =
      .ok (some 100, some 0) ∧
    (register_assets_entry envOneYocto [.nep141 "token"] (some (.account "alice"))
        stAliceHolds 0).map
        (fun p => (lookupA p.1.user_balances ("alice", .nep141 "token"),
                   lookupA p.1.total_in_custody (.nep141 "token"))) =
      .ok (some 0, none) := ⟨rfl, rfl⟩

/-! ## Theorems: asset conservation (C1) -/

/-- Sum of the balance entries for one asset over a balance map. -/
def sumBalFor {κ : Type} : List ((κ × AssetId) × Nat) → AssetId → Nat
  | [], _ => 0
  | kv :: rest, a => (if kv.1.2 = a then kv.2 else 0) + sumBalFor rest a

/-- The conservation invariant: for every asset, the custody sum equals
the sum of all user and dex balance entries for that asset. -/
def Conservation (st : EngineState) : Prop :=
  ∀ a : AssetId, (lookupA st.total_in_custody a).getD 0 =
    sumBalFor st.user_balances a + sumBalFor st.dex_balances a

theorem sumBalFor_setA_ne {κ : Type} [DecidableEq κ] (l : List ((κ × AssetId) × Nat))
    (k : κ × AssetId) (v : Nat) (a : AssetId) (h : k.2 ≠ a) :
    sumBalFor (setA l k v) a = sumBalFor l a := by
  induction l with
  | nil => simp [setA, sumBalFor, h]
  | cons kv rest ih =>
      by_cases hk : kv.1 = k
      · obtain ⟨k0, v0⟩ := kv
        simp only at hk
        subst hk
        simp [setA, sumBalFor, h]
      · obtain ⟨k0, v0⟩ := kv
        simp only at hk
        simp [setA, hk, sumBalFor, ih]

theorem sumBalFor_setA_eq {κ : Type} [DecidableEq κ] (l : List ((κ × AssetId) × Nat))
    (k : κ × AssetId) (v : Nat) (a : AssetId) (b : Nat) (hk : k.2 = a)
    (hl : lookupA l k = some b) :
    sumBalFor (setA l k v) a + b = sumBalFor l a + v := by
  induction l with
  | nil => simp [lookupA] at hl
  | cons kv rest ih =>
      by_cases hh : kv.1 = k
      · obtain ⟨k0, v0⟩ := kv
        simp only at hh
        subst hh
        have : v0 = b := by simpa [lookupA] using hl
        subst this
        simp [setA, sumBalFor, hk]
        omega
      · obtain ⟨k0, v0⟩ := kv
        simp only at hh
        have hl2 : lookupA rest k = some b := by simpa [lookupA, hh] using hl
        have := ih hl2
        simp [setA, hh, sumBalFor]
        omega

/-- The combined balance sum for an asset. -/
def sums (st : EngineState) (a : AssetId) : Nat :=
  sumBalFor st.user_balances a + sumBalFor st.dex_balances a

theorem custody_add_getD (st st2 : EngineState) (aid : AssetId) (amount : Nat)
    (h : custody_add st aid amount = .ok st2) :
    (∀ a, (lookupA st2.total_in_custody a).getD 0 =
      (lookupA st.total_in_custody a).getD 0 + (if aid = a then amount else 0)) ∧
    st2.user_balances = st.user_balances ∧ st2.dex_balances = st.dex_balances := by
  obtain ⟨b, hb, hsteq⟩ := custody_add_ok st st2 aid amount h
  subst hsteq
  refine ⟨?_, rfl, rfl⟩
  intro a
  by_cases ha : aid = a
  · subst ha
    show (lookupA (setA st.total_in_custody aid (b + amount)) aid).getD 0 = _
    rw [lookupA_setA_self, hb]
    simp
  · show (lookupA (setA st.total_in_custody aid (b + amount)) a).getD 0 = _
    rw [lookupA_setA_ne _ _ _ _ ha]
    simp [ha]

theorem custody_sub_ok (st st2 : EngineState) (a : AssetId) (amount : Nat)
    (h : custody_sub st a amount = .ok st2) :
    ∃ b, lookupA st.total_in_custody a = some b ∧ amount ≤ b ∧
      st2 = { st with total_in_custody := setA st.total_in_custody a (b - amount) } := by
  unfold custody_sub at h
  split at h
  · exact absurd h (by simp)
  · rename_i b hb
    split at h
    · exact absurd h (by simp)
    · rename_i b2 hb2
      have hb2v : b2 = b - amount ∧ amount ≤ b := by
        unfold checked_sub_nat at hb2
        split at hb2
        · cases hb2
          exact ⟨rfl, by assumption⟩
        · cases hb2
      cases h
      exact ⟨b, hb, hb2v.2, by rw [hb2v.1]⟩

theorem custody_sub_getD (st st2 : EngineState) (aid : AssetId) (amount : Nat)
    (h : custody_sub st aid amount = .ok st2) :
    (∀ a, (lookupA st2.total_in_custody a).getD 0 + (if aid = a then amount else 0) =
      (lookupA st.total_in_custody a).getD 0) ∧
    st2.user_balances = st.user_balances ∧ st2.dex_balances = st.dex_balances := by
  obtain ⟨b, hb, hle, hsteq⟩ := custody_sub_ok st st2 aid amount h
  subst hsteq
  refine ⟨?_, rfl, rfl⟩
  intro a
  by_cases ha : aid = a
  · subst ha
    show (lookupA (setA st.total_in_custody aid (b - amount)) aid).getD 0 + _ = _
    rw [lookupA_setA_self, hb]
    simp
    omega
  · show (lookupA (setA st.total_in_custody aid (b - amount)) a).getD 0 + _ = _
    rw [lookupA_setA_ne _ _ _ _ ha]
    simp [ha]

theorem increase_assets_sums (st st2 : EngineState) (who : AccountOrDexId) (aid : AssetId)
    (amount : Nat) (h : internal_increase_assets st who aid amount = .ok st2) :
    st2.total_in_custody = st.total_in_custody ∧
    ∀ a, sums st2 a = sums st a + (if aid = a then amount else 0) := by
  cases who with
  | account acct =>
      unfold internal_increase_assets at h
      dsimp only at h
      split at h
      · exact absurd h (by simp)
      · split at h
        · exact absurd h (by simp)
        · rename_i b hb
          split at h
          · exact absurd h (by simp)
          · rename_i b2 hb2
            have hb2v : b2 = b + amount := by
              unfold checked_add_u128 at hb2
              split at hb2
              · cases hb2; rfl
              · cases hb2
            subst hb2v
            cases h
            refine ⟨rfl, ?_⟩
            intro a
            unfold sums
            by_cases ha : aid = a
            · subst ha
              rw [if_pos rfl]
              have := sumBalFor_setA_eq st.user_balances (acct, aid) (b + amount) aid b
                rfl hb
              simp only
              omega
            · rw [if_neg ha]
              have := sumBalFor_setA_ne st.user_balances (acct, aid) (b + amount) a ha
              simp only
              omega
  | dex d =>
      unfold internal_increase_assets at h
      dsimp only at h
      split at h
      · exact absurd h (by simp)
      · split at h
        · exact absurd h (by simp)
        · rename_i b hb
          split at h
          · exact absurd h (by simp)
          · rename_i b2 hb2
            have hb2v : b2 = b + amount := by
              unfold checked_add_u128 at hb2
              split at hb2
              · cases hb2; rfl
              · cases hb2
            subst hb2v
            cases h
            refine ⟨rfl, ?_⟩
            intro a
            unfold sums
            by_cases ha : aid = a
            · subst ha
              rw [if_pos rfl]
              have := sumBalFor_setA_eq st.dex_balances (d, aid) (b + amount) aid b rfl hb
              simp only
              omega
            · rw [if_neg ha]
              have := sumBalFor_setA_ne st.dex_balances (d, aid) (b + amount) a ha
              simp only
              omega

theorem decrease_assets_sums (st st2 : EngineState) (who : AccountOrDexId) (aid : AssetId)
    (amount : Nat) (h : internal_decrease_assets st who aid amount = .ok st2) :
    st2.total_in_custody = st.total_in_custody ∧
    ∀ a, sums st2 a + (if aid = a then amount else 0) = sums st a := by
  cases who with
  | account acct =>
      unfold internal_decrease_assets at h
      dsimp only at h
      split at h
      · exact absurd h (by simp)
      · rename_i b hb
        split at h
        · exact absurd h (by simp)
        · rename_i b2 hb2
          have hb2v : b2 = b - amount ∧ amount ≤ b := by
            unfold checked_sub_nat at hb2
            split at hb2
            · cases hb2
              exact ⟨rfl, by assumption⟩
            · cases hb2
          cases h
          refine ⟨rfl, ?_⟩
          intro a
          unfold sums
          by_cases ha : aid = a
          · subst ha
            rw [if_pos rfl]
            have := sumBalFor_setA_eq st.user_balances (acct, aid) b2 aid b rfl hb
            simp only
            omega
          · rw [if_neg ha]
            have := sumBalFor_setA_ne st.user_balances (acct, aid) b2 a ha
            simp only
            omega
  | dex d =>
      unfold internal_decrease_assets at h
      dsimp only at h
      split at h
      · exact absurd h (by simp)
      · rename_i b hb
        split at h
        · exact absurd h (by simp)
        · rename_i b2 hb2
          have hb2v : b2 = b - amount ∧ amount ≤ b := by
            unfold checked_sub_nat at hb2
            split at hb2
            · cases hb2
              exact ⟨rfl, by assumption⟩
            · cases hb2
          cases h
          refine ⟨rfl, ?_⟩
          intro a
          unfold sums
          by_cases ha : aid = a
          · subst ha
            rw [if_pos rfl]
            have := sumBalFor_setA_eq st.dex_balances (d, aid) b2 aid b rfl hb
            simp only
            omega
          · rw [if_neg ha]
            have := sumBalFor_setA_ne st.dex_balances (d, aid) b2 a ha
            simp only
            omega

theorem conservation_transfer (st st2 : EngineState) (f t : AccountOrDexId) (aid : AssetId)
    (amt : Nat) (hc : Conservation st)
    (h : internal_transfer_asset st f t aid amt = .ok st2) : Conservation st2 := by
  unfold internal_transfer_asset at h
  split at h
  · cases h
    exact hc
  · split at h
    · exact absurd h (by simp)
    · rename_i stMid hdec
      obtain ⟨hcust1, hsum1⟩ := decrease_assets_sums st stMid f aid amt hdec
      obtain ⟨hcust2, hsum2⟩ := increase_assets_sums stMid st2 t aid amt h
      intro a
      have e1 := hsum1 a
      have e2 := hsum2 a
      have e3 := hc a
      unfold sums at e1 e2
      rw [hcust2, hcust1]
      omega

theorem conservation_withdraw (st st2 : EngineState) (aid : AssetId) (amount : Option Nat)
    (toAcc : Option AccountId) (fromP : AccountOrDexId) (disp : Option WithdrawDispatch)
    (hc : Conservation st) (h : internal_withdraw st aid amount toAcc fromP = .ok (st2, disp)) :
    Conservation st2 := by
  unfold internal_withdraw at h
  dsimp only at h
  split at h
  · cases h
    exact hc
  · split at h
    · exact absurd h (by simp)
    · rename_i stMid hdec
      split at h
      · exact absurd h (by simp)
      · rename_i stc hsub
        have key : Conservation stc := by
          intro a
          obtain ⟨hcust1, hsum1⟩ := decrease_assets_sums st stMid _ _ _ hdec
          obtain ⟨hgd, hub, hdb⟩ := custody_sub_getD stMid stc _ _ hsub
          have e1 := hsum1 a
          have e2 := hgd a
          have e3 := hc a
          unfold sums at e1
          show (lookupA stc.total_in_custody a).getD 0 =
            sumBalFor stc.user_balances a + sumBalFor stc.dex_balances a
          rw [hub, hdb, hcust1] at *
          omega
        repeat' split at h
        all_goals cases h
        all_goals exact key

theorem conservation_after_withdraw (st st2 : EngineState) (aid : AssetId) (amount : Nat)
    (fromP : AccountOrDexId) (result_ok flag : Bool) (hc : Conservation st)
    (h : after_withdraw st aid amount fromP result_ok = .ok (st2, flag)) :
    Conservation st2 := by
  unfold after_withdraw at h
  split at h
  · cases h
    exact hc
  · split at h
    · exact absurd h (by simp)
    · rename_i stMid hinc
      split at h
      · exact absurd h (by simp)
      · rename_i stc hadd
        cases h
        intro a
        obtain ⟨hcust1, hsum1⟩ := increase_assets_sums st stMid _ _ _ hinc
        obtain ⟨hgd, hub, hdb⟩ := custody_add_getD stMid st2 _ _ hadd
        have e1 := hsum1 a
        have e2 := hgd a
        have e3 := hc a
        unfold sums at e1
        show (lookupA st2.total_in_custody a).getD 0 =
          sumBalFor st2.user_balances a + sumBalFor st2.dex_balances a
        rw [hub, hdb, hcust1] at *
        omega

theorem conservation_deposit_near (env : Env) (st st2 : EngineState) (c c2 : Nat)
    (hc : Conservation st) (h : deposit_near env none st c = .ok (st2, c2)) :
    Conservation st2 := by
  unfold deposit_near at h
  dsimp only at h
  split at h
  · exact absurd h (by simp)
  · rename_i stc hcust
    split at h
    · exact absurd h (by simp)
    · rename_i st3 hinc
      cases h
      intro a
      obtain ⟨hgd, hub, hdb⟩ := custody_add_getD st stc _ _ hcust
      obtain ⟨hcust2, hsum2⟩ := increase_assets_sums stc st2 _ _ _ hinc
      have e1 := hgd a
      have e2 := hsum2 a
      have e3 := hc a
      unfold sums at e2
      have e4 : sumBalFor stc.user_balances a = sumBalFor st.user_balances a := by
        rw [hub]
      have e5 : sumBalFor stc.dex_balances a = sumBalFor st.dex_balances a := by
        rw [hdb]
      show (lookupA st2.total_in_custody a).getD 0 =
        sumBalFor st2.user_balances a + sumBalFor st2.dex_balances a
      rw [hcust2]
      omega

theorem conservation_ft_on_transfer (env : Env) (sender : AccountId) (amount : Nat)
    (st st2 : EngineState) (c c2 : Nat) (hc : Conservation st)
    (h : ft_on_transfer env sender amount none st c = .ok (st2, c2)) :
    Conservation st2 := by
  unfold ft_on_transfer at h
  dsimp only at h
  split at h
  · exact absurd h (by simp)
  · rename_i stc hcust
    split at h
    · exact absurd h (by simp)
    · rename_i st3 hinc
      cases h
      intro a
      obtain ⟨hgd, hub, hdb⟩ := custody_add_getD st stc _ _ hcust
      obtain ⟨hcust2, hsum2⟩ := increase_assets_sums stc st2 _ _ _ hinc
      have e1 := hgd a
      have e2 := hsum2 a
      have e3 := hc a
      unfold sums at e2
      have e4 : sumBalFor stc.user_balances a = sumBalFor st.user_balances a := by
        rw [hub]
      have e5 : sumBalFor stc.dex_balances a = sumBalFor st.dex_balances a := by
        rw [hdb]
      show (lookupA st2.total_in_custody a).getD 0 =
        sumBalFor st2.user_balances a + sumBalFor st2.dex_balances a
      rw [hcust2]
      omega

/-- A state whose custody map has a zero NEAR entry and nothing else. -/
def stNearRegistered : EngineState :=
  { dex_balances := []
    dex_storage := []
    dex_codes := []
    dex_storage_balances := []
    user_balances := []
    user_storage_balances := []
    total_in_custody := [(.near, 0)] }

/-- Environment attaching 5 yoctonear. -/
def envFiveNear : Env :=
  { predecessor := "alice"
    attachedDeposit := 5
    byteCost := 0
    usage := fun _ => 0
    swapResponder := fun _ _ _ => none
    callResponder := fun _ _ _ _ _ => none }

/-- The state after `deposit_near` with a sandboxed `StorageDeposit` of
the whole attached amount: custody went up by 5, no balance entry did. -/
def stAfterConversion : EngineState :=
  { dex_balances := []
    dex_storage := []
    dex_codes := []
    dex_storage_balances := []
    user_balances := []
    user_storage_balances := [("alice", { total := 5, used := 0 })]
    total_in_custody := [(.near, 5)] }

/-- Counterexample to C1 as stated: a successful entry call after which
the custody sum does not equal the sum of balance entries.  Depositing 5
NEAR with a sandboxed `StorageDeposit{amount: 5}` operation converts the
attached NEAR into storage balance: the deposit callback added 5 to
`total_in_custody[Near]` but the conversion removes the NEAR from the
sandbox without decrementing custody, so custody ends at 5 while every
balance entry sums to 0. -/
theorem c1_conservation_counterexample :
    Conservation stNearRegistered ∧
    deposit_near envFiveNear (some [.storageDeposit 5 (some (.account "alice"))])
        stNearRegistered 0 = .ok (stAfterConversion, 2) ∧
    ¬ Conservation stAfterConversion :=
  ⟨fun a => by cases a <;> rfl, rfl, fun h => absurd (h .near) (by decide)⟩

/-- Claim C1 (amended): the operations the claim enumerates do preserve
conservation — a plain deposit callback (`deposit_near`, `ft_on_transfer`
without operations) increases the custody sum and a balance entry by the
same amount, `internal_withdraw` decreases both by the same amount, a
failed-withdrawal callback (`after_withdraw` on failure) re-credits both,
and `internal_transfer_asset` leaves both totals unchanged.  (The full
per-entry-call invariant fails: a sandboxed `StorageDeposit` conversion
increases custody with no matching balance entry.) -/
theorem c1_conservation_of_cited_operations :
    (∀ (env : Env) (st st2 : EngineState) (c c2 : Nat),
        Conservation st → deposit_near env none st c = .ok (st2, c2) →
        Conservation st2) ∧
    (∀ (env : Env) (sender : AccountId) (amount : Nat) (st st2 : EngineState) (c c2 : Nat),
        Conservation st → ft_on_transfer env sender amount none st c = .ok (st2, c2) →
        Conservation st2) ∧
    (∀ (st st2 : EngineState) (aid : AssetId) (amount : Option Nat)
        (toAcc : Option AccountId) (fromP : AccountOrDexId) (disp : Option WithdrawDispatch),
        Conservation st → internal_withdraw st aid amount toAcc fromP = .ok (st2, disp) →
        Conservation st2) ∧
    (∀ (st st2 : EngineState) (aid : AssetId) (amount : Nat) (fromP : AccountOrDexId)
        (result_ok flag : Bool),
        Conservation st → after_withdraw st aid amount fromP result_ok = .ok (st2, flag) →
        Conservation st2) ∧
    (∀ (st st2 : EngineState) (f t : AccountOrDexId) (aid : AssetId) (amt : Nat),
        Conservation st → internal_transfer_asset st f t aid amt = .ok st2 →
        Conservation st2) := by
  refine ⟨?_, ?_, ?_, ?_, ?_⟩
  · intro env st st2 c c2 hc h
    exact conservation_deposit_near env st st2 c c2 hc h
  · intro env sender amount st st2 c c2 hc h
    exact conservation_ft_on_transfer env sender amount st st2 c c2 hc h
  · intro st st2 aid amount toAcc fromP disp hc h
    exact conservation_withdraw st st2 aid amount toAcc fromP disp hc h
  · intro st st2 aid amount fromP result_ok flag hc h
    exact conservation_after_withdraw st st2 aid amount fromP result_ok flag hc h
  · intro st st2 f t aid amt hc h
    exact conservation_transfer st st2 f t aid amt hc h

/-- Witness for C1's amended theorem: the transfer conjunct applied to a
zero-amount transfer on a conserving state. -/
theorem c1_conservation_of_cited_operations_witness :
    Conservation stOneDex :=
  c1_conservation_of_cited_operations.2.2.2.2 stOneDex stOneDex (.account "alice")
    (.account "bob") .near 0 (fun _ => rfl) rfl

/-! ## The intent-matching tenant (src/dexes/otc/src/lib.rs) -/

namespace Otc

abbrev Nonce := Nat

inductive ExpiryCondition where
  | blockHeight (h : Nat)
  | timestamp (milliseconds : Nat)
deriving DecidableEq, Repr

structure Validity where
  expiry : Option ExpiryCondition
  nonce : Option Nonce
  only_for_whitelisted_parties : Option (List AccountId)
deriving DecidableEq, Repr

structure TradeIntent where
  user_id : AccountId
  asset_in : AssetId
  asset_out : AssetId
  amount_in : Nat
  amount_out : Nat
  validity : Validity
deriving DecidableEq, Repr

inductive AuthorizationMethod where
  | signature (sig : Nat)
  | predecessor
deriving DecidableEq, Repr

structure AuthorizedTradeIntent where
  trade_intent : TradeIntent
  authorization_method : AuthorizationMethod
deriving DecidableEq, Repr

inductive OutputDestination where
  | internalOtcBalance
  | intearDexBalance
  | withdrawToUser
deriving DecidableEq, Repr

structure MatchArgs where
  authorized_trade_intents : List AuthorizedTradeIntent
  output_destination : OutputDestination
deriving DecidableEq, Repr

structure OtcStorageBalance where
  total : Nat
  used : Nat
deriving DecidableEq, Repr

/-- `OtcDex` contract state.  The two companion `TreeMap`s become sorted
association lists of `(expiry key, nonce)` pairs per user; the
`LookupSet` of used nonces becomes a duplicate-free list. -/
structure OtcState where
  balances : List ((AccountId × AssetId) × Nat)
  authorized_keys : List (AccountId × Nat)
  storage_balances : List (AccountId × OtcStorageBalance)
  used_expirable_nonces_block_height : List (AccountId × List (Nat × Nonce))
  used_expirable_nonces_timestamp_millis : List (AccountId × List (Nat × Nonce))
  used_nonces : List (AccountId × Nonce)
deriving DecidableEq, Repr

/-- Oracle record for the OTC tenant's host context.  `sigOk` abstracts
`ed25519_verify`/`ecrecover` over `sha256(borsh(intent))` against the
stored key. -/
structure OtcEnv where
  predecessor : AccountId
  blockHeight : Nat
  timestampMs : Nat
  attachedDeposit : Nat
  byteCost : Nat
  usage : Nat → Nat
  sigOk : Nat → Nat → TradeIntent → Bool

def setInsert {α : Type} [DecidableEq α] (l : List α) (x : α) : List α :=
  if x ∈ l then l else x :: l

def setRemove {α : Type} [DecidableEq α] (l : List α) (x : α) : List α :=
  l.filter (fun y => y ≠ x)

/-- Strict lexicographic order of `TreeMap` keys `(expiry, nonce)`. -/
def pairLt (p q : Nat × Nonce) : Prop :=
  p.1 < q.1 ∨ (p.1 = q.1 ∧ p.2 < q.2)

instance : DecidablePred (fun pq : (Nat × Nonce) × (Nat × Nonce) => pairLt pq.1 pq.2) :=
  fun pq => by unfold pairLt; infer_instance

instance (p q : Nat × Nonce) : Decidable (pairLt p q) := by
  unfold pairLt; infer_instance

/-- `TreeMap::insert` on the sorted key list (unit values). -/
def treeInsert : List (Nat × Nonce) → (Nat × Nonce) → List (Nat × Nonce)
  | [], k => [k]
  | k0 :: rest, k =>
      if k = k0 then k0 :: rest
      else if pairLt k k0 then k :: k0 :: rest
      else k0 :: treeInsert rest k

/-- `NONCES_TO_REMOVE_AT_ONCE`. -/
def NONCES_TO_REMOVE_AT_ONCE : Nat := 10

/-- One iteration of the block-height nonce GC loop: remove the key and
the corresponding used-nonce pair when the stored height has passed. -/
def gcStepBH (env : OtcEnv) (u : AccountId) (st : OtcState) (k : Nat × Nonce) : OtcState :=
  if k.1 < env.blockHeight then
    { st with
      used_expirable_nonces_block_height :=
        setA st.used_expirable_nonces_block_height u
          (((lookupA st.used_expirable_nonces_block_height u).getD []).filter
            (fun p => p ≠ k))
      used_nonces := setRemove st.used_nonces (u, k.2) }
  else st

def gcExpiredBH (env : OtcEnv) (st : OtcState) (u : AccountId) : OtcState :=
  match lookupA st.used_expirable_nonces_block_height u with
  | none => st
  | some m => (m.take NONCES_TO_REMOVE_AT_ONCE).foldl (gcStepBH env u) st

/-- One iteration of the timestamp nonce GC loop. -/
def gcStepTS (env : OtcEnv) (u : AccountId) (st : OtcState) (k : Nat × Nonce) : OtcState :=
  if k.1 < env.timestampMs then
    { st with
      used_expirable_nonces_timestamp_millis :=
        setA st.used_expirable_nonces_timestamp_millis u
          (((lookupA st.used_expirable_nonces_timestamp_millis u).getD []).filter
            (fun p => p ≠ k))
      used_nonces := setRemove st.used_nonces (u, k.2) }
  else st

def gcExpiredTS (env : OtcEnv) (st : OtcState) (u : AccountId) : OtcState :=
  match lookupA st.used_expirable_nonces_timestamp_millis u with
  | none => st
  | some m => (m.take NONCES_TO_REMOVE_AT_ONCE).foldl (gcStepTS env u) st

/-- `AuthorizedTradeIntent::validate`. -/
def validateIntent (env : OtcEnv) (st : OtcState) (i : AuthorizedTradeIntent)
    (all_user_ids : List AccountId) : Except String Unit :=
  let expiryCheck : Except String Unit :=
    match i.trade_intent.validity.expiry with
    | some (.blockHeight bh) =>
        if env.blockHeight ≤ bh then .ok ()
        else .error "Intent expired: Block height expired"
    | some (.timestamp ms) =>
        if env.timestampMs < ms then .ok ()
        else .error "Intent expired: Timestamp expired"
    | none => .ok ()
  match expiryCheck with
  | .error e => .error e
  | .ok _ =>
      let wlCheck : Except String Unit :=
        match i.trade_intent.validity.only_for_whitelisted_parties with
        | some wl =>
            if all_user_ids.all (fun u => u = i.trade_intent.user_id ∨ u ∈ wl) then .ok ()
            else .error "Intent not authorized: user not whitelisted"
        | none => .ok ()
      match wlCheck with
      | .error e => .error e
      | .ok _ =>
          match i.authorization_method with
          | .predecessor =>
              if env.predecessor = i.trade_intent.user_id then .ok ()
              else .error "Intent not authorized: predecessor is not the user"
          | .signature sig =>
              match lookupA st.authorized_keys i.trade_intent.user_id with
              | some pk =>
                  if env.sigOk pk sig i.trade_intent then .ok ()
                  else .error "Intent not authorized: Signature verification failed"
              | none => .error "Intent not authorized: no authorized key"

/-- `OtcDex::charge_storage_deposit`. -/
def otc_charge_storage_deposit (byteCost : Nat) (st : OtcState)
    (storage_usage_before storage_usage_after : Nat) (payer : AccountId) :
    Except String OtcState :=
  if storage_usage_before < storage_usage_after then
    let cost := saturating_mul_u128 byteCost (storage_usage_after - storage_usage_before)
    match lookupA st.storage_balances payer with
    | none => .error "Storage not registered"
    | some b =>
        let b2 : OtcStorageBalance := { b with used := saturating_add_u128 b.used cost }
        if b2.total < b2.used then .error "Not enough storage deposit"
        else .ok { st with storage_balances := setA st.storage_balances payer b2 }
  else if storage_usage_after < storage_usage_before then
    let cost := saturating_mul_u128 byteCost (storage_usage_before - storage_usage_after)
    match lookupA st.storage_balances payer with
    | none => .error "Storage not registered"
    | some b =>
        match checked_sub_nat b.used cost with
        | none => .error "Storage used underflow"
        | some u2 =>
            let b2 : OtcStorageBalance := { b with used := u2 }
            if b2.total < b2.used then .error "Not enough storage deposit"
            else .ok { st with storage_balances := setA st.storage_balances payer b2 }
  else .ok st

/-- `2 ^ 255`, the magnitude bound of `crypto_bigint::I256`. -/
def I256LIM : Int := 2 ^ 255

/-- `I256::checked_add`. -/
def i256_checked_add (a b : Int) : Option Int :=
  if -I256LIM ≤ a + b ∧ a + b < I256LIM then some (a + b) else none

/-- One `entry().and_modify(checked_add).or_insert` step of the net-change
accumulation. -/
def addNetChange (m : List (AssetId × Int)) (a : AssetId) (v : Int) :
    Except String (List (AssetId × Int)) :=
  match lookupA m a with
  | none => .ok (setA m a v)
  | some b =>
      match i256_checked_add b v with
      | none => .error "Amount overflow"
      | some b2 => .ok (setA m a b2)

/-- The net-change accumulation over all intents: `amount_in` is entered
with negative sign (`ConstChoice::TRUE` = is-negative in the source) and
`amount_out` with positive sign. -/
def assetsNetChange : List AuthorizedTradeIntent → List (AssetId × Int) →
    Except String (List (AssetId × Int))
  | [], m => .ok m
  | i :: rest, m =>
      match addNetChange m i.trade_intent.asset_in (-(i.trade_intent.amount_in : Int)) with
      | .error e => .error e
      | .ok m1 =>
          match addNetChange m1 i.trade_intent.asset_out
              (i.trade_intent.amount_out : Int) with
          | .error e => .error e
          | .ok m2 => assetsNetChange rest m2

/-- The per-asset zero test over the accumulated map. -/
def netZeroCheck (m : List (AssetId × Int)) : Except String Unit :=
  if m.all (fun kv => kv.2 = 0) then .ok () else .error "Asset net sum is not zero"

/-- The input-side debit of one intent (skipped when the caller attached
the required assets and this intent is the caller's own). -/
def debitIn (env : OtcEnv) (st : OtcState) (i : AuthorizedTradeIntent)
    (allAttached : Bool) : Except String OtcState :=
  if i.trade_intent.user_id = env.predecessor ∧ allAttached then .ok st
  else
    match lookupA st.balances (i.trade_intent.user_id, i.trade_intent.asset_in) with
    | none => .error "User has no registered balance for asset"
    | some b =>
        match checked_sub_nat b i.trade_intent.amount_in with
        | none => .error "Balance underflow"
        | some b2 =>
            let nb := setA st.balances (i.trade_intent.user_id, i.trade_intent.asset_in) b2
            .ok { st with balances := nb }

/-- The output side of one intent: a withdraw request for the caller's own
intents when the destination is external, otherwise a credit to the
tenant-inner balance (auto-created) plus a storage charge. -/
def creditOut (env : OtcEnv) (st : OtcState) (i : AuthorizedTradeIntent)
    (dest : OutputDestination) (reqs : List AssetWithdrawRequest) (c : Nat) :
    Except String (OtcState × List AssetWithdrawRequest × Nat) :=
  if i.trade_intent.user_id = env.predecessor ∧ dest = .intearDexBalance then
    .ok (st, reqs ++ [⟨i.trade_intent.asset_out, i.trade_intent.amount_out,
      .toInternalUserBalance i.trade_intent.user_id⟩], c)
  else if i.trade_intent.user_id = env.predecessor ∧ dest = .withdrawToUser then
    .ok (st, reqs ++ [⟨i.trade_intent.asset_out, i.trade_intent.amount_out,
      .withdrawUnderlyingAsset i.trade_intent.user_id⟩], c)
  else
    let u1 := env.usage c
    let key := (i.trade_intent.user_id, i.trade_intent.asset_out)
    let st2E : Except String OtcState :=
      match lookupA st.balances key with
      | none => .ok { st with balances := setA st.balances key i.trade_intent.amount_out }
      | some b =>
          match checked_add_u128 b i.trade_intent.amount_out with
          | none => .error "Balance overflow"
          | some b2 => .ok { st with balances := setA st.balances key b2 }
    match st2E with
    | .error e => .error e
    | .ok st2 =>
        let u2 := env.usage (c + 1)
        match otc_charge_storage_deposit env.byteCost st2 u1 u2 i.trade_intent.user_id with
        | .error e => .error e
        | .ok st3 => .ok (st3, reqs, c + 2)

/-- The nonce check and record of one intent (runs after the GC). -/
def nonceCheckRecord (st : OtcState) (i : AuthorizedTradeIntent) :
    Except String OtcState :=
  match i.trade_intent.validity.nonce with
  | none => .ok st
  | some n =>
      if (i.trade_intent.user_id, n) ∈ st.used_nonces then
        .error "Intent not authorized: Nonce already used"
      else
        let st1 := { st with
          used_nonces := setInsert st.used_nonces (i.trade_intent.user_id, n) }
        match i.trade_intent.validity.expiry with
        | none => .ok st1
        | some (.blockHeight bh) =>
            let nm := setA st1.used_expirable_nonces_block_height i.trade_intent.user_id
              (treeInsert
                ((lookupA st1.used_expirable_nonces_block_height
                  i.trade_intent.user_id).getD []) (bh, n))
            .ok { st1 with used_expirable_nonces_block_height := nm }
        | some (.timestamp ms) =>
            let nm := setA st1.used_expirable_nonces_timestamp_millis i.trade_intent.user_id
              (treeInsert
                ((lookupA st1.used_expirable_nonces_timestamp_millis
                  i.trade_intent.user_id).getD []) (ms, n))
            .ok { st1 with used_expirable_nonces_timestamp_millis := nm }

/-- Processing of one intent inside the `match` loop. -/
def processIntent (env : OtcEnv) (allAttached : Bool) (dest : OutputDestination)
    (allUsers : List AccountId) (acc : OtcState × List AssetWithdrawRequest × Nat)
    (i : AuthorizedTradeIntent) : Except String (OtcState × List AssetWithdrawRequest × Nat) :=
  match validateIntent env acc.1 i allUsers with
  | .error e => .error e
  | .ok _ =>
      match debitIn env acc.1 i allAttached with
      | .error e => .error e
      | .ok st1 =>
          match creditOut env st1 i dest acc.2.1 acc.2.2 with
          | .error e => .error e
          | .ok (st2, reqs2, c2) =>
              let u1 := env.usage c2
              let st3 := gcExpiredTS env (gcExpiredBH env st2 i.trade_intent.user_id)
                i.trade_intent.user_id
              match nonceCheckRecord st3 i with
              | .error e => .error e
              | .ok st4 =>
                  let u2 := env.usage (c2 + 1)
                  match otc_charge_storage_deposit env.byteCost st4 u1 u2
                      i.trade_intent.user_id with
                  | .error e => .error e
                  | .ok st5 => .ok (st5, reqs2, c2 + 2)

def processIntents (env : OtcEnv) (allAttached : Bool) (dest : OutputDestination)
    (allUsers : List AccountId) :
    List AuthorizedTradeIntent → (OtcState × List AssetWithdrawRequest × Nat) →
    Except String (OtcState × List AssetWithdrawRequest × Nat)
  | [], acc => .ok acc
  | i :: rest, acc =>
      match processIntent env allAttached dest allUsers acc i with
      | .error e => .error e
      | .ok acc2 => processIntents env allAttached dest allUsers rest acc2

/-- The required-assets accumulation over the caller's own intents. -/
def requiredAssets (env : OtcEnv) : List AuthorizedTradeIntent → List (AssetId × Nat) →
    Except String (List (AssetId × Nat))
  | [], m => .ok m
  | i :: rest, m =>
      if i.trade_intent.user_id = env.predecessor then
        match lookupA m i.trade_intent.asset_in with
        | none => requiredAssets env rest (setA m i.trade_intent.asset_in
            i.trade_intent.amount_in)
        | some b =>
            match checked_add_u128 b i.trade_intent.amount_in with
            | none => .error "Required amount overflow"
            | some b2 => requiredAssets env rest (setA m i.trade_intent.asset_in b2)
      else requiredAssets env rest m

/-- `HashMap` equality of the required and attached asset maps, as
lookup equivalence. -/
def mapEquivB (a b : List (AssetId × Nat)) : Bool :=
  (a.all fun kv => lookupA b kv.1 == some kv.2) &&
  (b.all fun kv => lookupA a kv.1 == some kv.2)

/-- `OtcDex::match` (borsh parsing of `args` is external; the parsed
`MatchArgs` is the argument). -/
def otcMatch (env : OtcEnv) (st : OtcState) (attached : List (AssetId × Nat))
    (args : MatchArgs) (c : Nat) :
    Except String (OtcState × List AssetWithdrawRequest × Nat) :=
  let intents := args.authorized_trade_intents
  let attachedCheck : Except String Bool :=
    if attached.isEmpty then .ok false
    else
      match requiredAssets env intents [] with
      | .error e => .error e
      | .ok required =>
          if mapEquivB required attached then .ok true
          else .error "Invalid attached assets"
  match attachedCheck with
  | .error e => .error e
  | .ok allAttached =>
      if ¬(allAttached = true ∨ env.attachedDeposit ≠ 0) then
        .error "You must attach all required assets if dex call is not authorized"
      else
        match assetsNetChange intents [] with
        | .error e => .error e
        | .ok net =>
            match netZeroCheck net with
            | .error e => .error e
            | .ok _ =>
                processIntents env allAttached args.output_destination
                  (intents.map (fun i => i.trade_intent.user_id)) intents (st, [], c)

/-! ### Net-zero check (claim C3) -/

/-- Value of the accumulated net-change map at an asset (absent = 0, as
`HashMap::entry().or_insert` treats absence). -/
def valOf (m : List (AssetId × Int)) (a : AssetId) : Int := (lookupA m a).getD 0

/-- Sum of `amount_in` over intents with `asset_in = a`. -/
def sumAmountIn : List AuthorizedTradeIntent → AssetId → Nat
  | [], _ => 0
  | i :: rest, a =>
      (if i.trade_intent.asset_in = a then i.trade_intent.amount_in else 0) +
        sumAmountIn rest a

/-- Sum of `amount_out` over intents with `asset_out = a`. -/
def sumAmountOut : List AuthorizedTradeIntent → AssetId → Nat
  | [], _ => 0
  | i :: rest, a =>
      (if i.trade_intent.asset_out = a then i.trade_intent.amount_out else 0) +
        sumAmountOut rest a

theorem sumAmountIn_cons (i : AuthorizedTradeIntent) (rest : List AuthorizedTradeIntent)
    (a : AssetId) : sumAmountIn (i :: rest) a =
      (if i.trade_intent.asset_in = a then i.trade_intent.amount_in else 0) +
        sumAmountIn rest a := rfl

theorem sumAmountOut_cons (i : AuthorizedTradeIntent) (rest : List AuthorizedTradeIntent)
    (a : AssetId) : sumAmountOut (i :: rest) a =
      (if i.trade_intent.asset_out = a then i.trade_intent.amount_out else 0) +
        sumAmountOut rest a := rfl

theorem lookupA_mem {α β : Type} [DecidableEq α] (l : List (α × β)) (k : α) (v : β)
    (h : lookupA l k = some v) : (k, v) ∈ l := by
  induction l with
  | nil => simp [lookupA] at h
  | cons p rest ih =>
      obtain ⟨k0, v0⟩ := p
      by_cases h0 : k0 = k
      · subst h0
        have h2 : v0 = v := by simpa [lookupA] using h
        subst h2
        exact List.mem_cons_self _ _
      · simp only [lookupA, if_neg h0] at h
        exact List.mem_cons_of_mem _ (ih h)

theorem lookupA_of_mem_nodup {α β : Type} [DecidableEq α] (l : List (α × β)) (k : α) (v : β)
    (hnd : NodupKeys l) (h : (k, v) ∈ l) : lookupA l k = some v := by
  induction l with
  | nil => simp at h
  | cons p rest ih =>
      obtain ⟨k0, v0⟩ := p
      rcases List.mem_cons.mp h with h1 | h1
      · cases h1
        simp [lookupA]
      · have hk0 : k0 ≠ k := by
          intro he
          subst he
          have : k0 ∈ keysA rest := by
            simp only [keysA, List.mem_map]
            exact ⟨(k0, v), h1, rfl⟩
          have hnd2 := hnd
          unfold NodupKeys keysA at hnd2
          simp only [List.map_cons, List.nodup_cons] at hnd2
          exact hnd2.1 this
        have hndr : NodupKeys rest := by
          unfold NodupKeys keysA at hnd ⊢
          simp only [List.map_cons, List.nodup_cons] at hnd
          exact hnd.2
        simp only [lookupA, if_neg hk0]
        exact ih hndr h1

theorem valOf_setA (m : List (AssetId × Int)) (a b : AssetId) (x : Int) :
    valOf (setA m a x) b = if a = b then x else valOf m b := by
  unfold valOf
  by_cases h : a = b
  · subst h
    rw [lookupA_setA_self, if_pos rfl]
    rfl
  · rw [lookupA_setA_ne _ _ _ _ h, if_neg h]

/-- `entry().and_modify(checked_add).or_insert` succeeds when the new value
is representable and acts as a point update of `valOf`. -/
theorem addNetChange_ok (m : List (AssetId × Int)) (a : AssetId) (v : Int)
    (h1 : -I256LIM ≤ valOf m a + v) (h2 : valOf m a + v < I256LIM) :
    addNetChange m a v = .ok (setA m a (valOf m a + v)) := by
  unfold valOf at h1 h2
  unfold addNetChange valOf
  cases hm : lookupA m a with
  | none =>
      simp only [hm, Option.getD_none] at h1 h2 ⊢
      rw [zero_add]
  | some b =>
      simp only [hm, Option.getD_some] at h1 h2 ⊢
      unfold i256_checked_add
      rw [if_pos ⟨h1, h2⟩]

/-- The net-change accumulation over a batch of intents with 128-bit
representable amounts never overflows the signed 256-bit range (given the
borsh-imposed `u32` bound on the batch length) and computes, per asset,
`Σ amount_out − Σ amount_in` on top of the incoming map. -/
theorem assetsNetChange_ok (l : List AuthorizedTradeIntent) :
    ∀ (m : List (AssetId × Int)) (B : Int),
    (∀ i ∈ l, i.trade_intent.amount_in < U128LIM ∧ i.trade_intent.amount_out < U128LIM) →
    (∀ a, -B ≤ valOf m a ∧ valOf m a ≤ B) →
    0 ≤ B →
    B + 2 * l.length * (U128LIM : Int) ≤ I256LIM →
    ∃ m2, assetsNetChange l m = .ok m2 ∧
      (∀ a, valOf m2 a =
        valOf m a + ((sumAmountOut l a : Int) - (sumAmountIn l a : Int))) ∧
      (NodupKeys m → NodupKeys m2) := by
  induction l with
  | nil =>
      intro m B _ _ _ _
      refine ⟨m, rfl, ?_, fun h => h⟩
      intro a
      simp [sumAmountOut, sumAmountIn]
  | cons i rest ih =>
      intro m B hl hB hB0 hlen
      obtain ⟨hin, hout⟩ := hl i (List.mem_cons_self _ _)
      have hLIMpos : (0 : Int) < (U128LIM : Int) := by
        have : 0 < U128LIM := by unfold U128LIM; exact pow_pos (by norm_num) 128
        exact_mod_cast this
      have hlen2 : B + 2 * (U128LIM : Int) + 2 * rest.length * (U128LIM : Int) ≤ I256LIM := by
        simp only [List.length_cons] at hlen
        push_cast at hlen ⊢
        nlinarith [Int.natCast_nonneg rest.length]
      have hinZ : (i.trade_intent.amount_in : Int) < (U128LIM : Int) := by
        exact_mod_cast hin
      have houtZ : (i.trade_intent.amount_out : Int) < (U128LIM : Int) := by
        exact_mod_cast hout
      have hrestlen : (0 : Int) ≤ 2 * rest.length * (U128LIM : Int) := by
        have h1 : (0 : Int) ≤ (rest.length : Int) := Int.natCast_nonneg _
        nlinarith
      obtain ⟨hBa1, hBa2⟩ := hB i.trade_intent.asset_in
      have hstep1 : addNetChange m i.trade_intent.asset_in (-(i.trade_intent.amount_in : Int)) =
          .ok (setA m i.trade_intent.asset_in
            (valOf m i.trade_intent.asset_in + -(i.trade_intent.amount_in : Int))) := by
        apply addNetChange_ok
        · have : (0 : Int) ≤ (i.trade_intent.amount_in : Int) := Int.natCast_nonneg _
          omega
        · have : (0 : Int) ≤ (i.trade_intent.amount_in : Int) := Int.natCast_nonneg _
          omega
      set m1 := setA m i.trade_intent.asset_in
        (valOf m i.trade_intent.asset_in + -(i.trade_intent.amount_in : Int)) with hm1
      have hB1 : ∀ a, -(B + (U128LIM : Int)) ≤ valOf m1 a ∧ valOf m1 a ≤ B + (U128LIM : Int) := by
        intro a
        rw [hm1, valOf_setA]
        by_cases h : i.trade_intent.asset_in = a
        · rw [if_pos h]
          have : (0 : Int) ≤ (i.trade_intent.amount_in : Int) := Int.natCast_nonneg _
          omega
        · rw [if_neg h]
          obtain ⟨x1, x2⟩ := hB a
          omega
      obtain ⟨hB1a, hB1b⟩ := hB1 i.trade_intent.asset_out
      have hstep2 : addNetChange m1 i.trade_intent.asset_out (i.trade_intent.amount_out : Int) =
          .ok (setA m1 i.trade_intent.asset_out
            (valOf m1 i.trade_intent.asset_out + (i.trade_intent.amount_out : Int))) := by
        apply addNetChange_ok
        · have : (0 : Int) ≤ (i.trade_intent.amount_out : Int) := Int.natCast_nonneg _
          omega
        · omega
      set m2 := setA m1 i.trade_intent.asset_out
        (valOf m1 i.trade_intent.asset_out + (i.trade_intent.amount_out : Int)) with hm2
      have hB2 : ∀ a, -(B + 2 * (U128LIM : Int)) ≤ valOf m2 a ∧
          valOf m2 a ≤ B + 2 * (U128LIM : Int) := by
        intro a
        rw [hm2, valOf_setA]
        by_cases h : i.trade_intent.asset_out = a
        · rw [if_pos h]
          have : (0 : Int) ≤ (i.trade_intent.amount_out : Int) := Int.natCast_nonneg _
          obtain ⟨x1, x2⟩ := hB1 i.trade_intent.asset_out
          omega
        · rw [if_neg h]
          obtain ⟨x1, x2⟩ := hB1 a
          omega
      obtain ⟨mf, hok, hval, hnd⟩ := ih m2 (B + 2 * (U128LIM : Int))
        (fun j hj => hl j (List.mem_cons_of_mem _ hj)) hB2 (by omega) (by omega)
      refine ⟨mf, ?_, ?_, ?_⟩
      · show assetsNetChange (i :: rest) m = .ok mf
        unfold assetsNetChange
        rw [hstep1]
        dsimp only
        rw [hstep2]
        exact hok
      · intro a
        rw [hval a]
        rw [hm2, valOf_setA]
        have hvm1 : ∀ b, valOf m1 b =
            valOf m b + (if i.trade_intent.asset_in = b then
              -(i.trade_intent.amount_in : Int) else 0) := by
          intro b
          rw [hm1, valOf_setA]
          by_cases h : i.trade_intent.asset_in = b
          · rw [if_pos h, if_pos h, h]
          · rw [if_neg h, if_neg h]
            omega
        show _ = valOf m a + ((sumAmountOut (i :: rest) a : Int) - (sumAmountIn (i :: rest) a : Int))
        rw [sumAmountOut_cons, sumAmountIn_cons]
        by_cases h1 : i.trade_intent.asset_out = a <;>
          by_cases h2 : i.trade_intent.asset_in = a
        · rw [if_pos h1, if_pos h1, if_pos h2, h1, hvm1 a, if_pos h2]
          push_cast
          ring
        · rw [if_pos h1, if_pos h1, if_neg h2, h1, hvm1 a, if_neg h2]
          push_cast
          ring
        · rw [if_neg h1, if_neg h1, if_pos h2, hvm1 a, if_pos h2]
          push_cast
          ring
        · rw [if_neg h1, if_neg h1, if_neg h2, hvm1 a, if_neg h2]
          push_cast
          ring
      · intro hm
        exact hnd (nodupKeys_setA _ _ _ (nodupKeys_setA _ _ _ hm))

/-- Over a duplicate-free accumulated map, per-entry zero-ness is lookup
zero-ness. -/
theorem net_allZero_iff (net : List (AssetId × Int)) (hnd : NodupKeys net) :
    (∀ kv ∈ net, kv.2 = (0 : Int)) ↔ (∀ a, valOf net a = 0) := by
  constructor
  · intro hall a
    unfold valOf
    cases h : lookupA net a with
    | none => rfl
    | some b =>
        have := hall (a, b) (lookupA_mem _ _ _ h)
        simpa using this
  · intro hall kv hkv
    have := lookupA_of_mem_nodup net kv.1 kv.2 hnd (by exact hkv)
    have h2 := hall kv.1
    unfold valOf at h2
    rw [this] at h2
    simpa using h2

/-! ### Nonce bookkeeping (claim C6) -/

/-- Block-height companion sequence of a user (absent map entry = empty,
as `LookupMap::get` treats absence). -/
def bhList (st : OtcState) (u : AccountId) : List (Nat × Nonce) :=
  (lookupA st.used_expirable_nonces_block_height u).getD []

/-- Timestamp companion sequence of a user. -/
def tsList (st : OtcState) (u : AccountId) : List (Nat × Nonce) :=
  (lookupA st.used_expirable_nonces_timestamp_millis u).getD []

/-- Every companion entry has its `(user, nonce)` pair in the used set. -/
def Sync (st : OtcState) : Prop :=
  ∀ u p, (p ∈ bhList st u ∨ p ∈ tsList st u) → (u, p.2) ∈ st.used_nonces

/-- Per user, a nonce occurs in at most one companion entry across both
sequences. -/
def UniqNonce (st : OtcState) : Prop :=
  ∀ u p q,
    (p ∈ bhList st u → q ∈ bhList st u → p.2 = q.2 → p = q) ∧
    (p ∈ tsList st u → q ∈ tsList st u → p.2 = q.2 → p = q) ∧
    (p ∈ bhList st u → q ∈ tsList st u → p.2 ≠ q.2)

/-- The companion `TreeMap` key sequences are duplicate-free. -/
def NodupLists (st : OtcState) : Prop :=
  ∀ u, (bhList st u).Nodup ∧ (tsList st u).Nodup

/-- Reachable-state invariant of the nonce bookkeeping. -/
def OtcNonceWF (st : OtcState) : Prop := Sync st ∧ UniqNonce st ∧ NodupLists st

/-- `(u, n)` is recorded and none of its companion entries has expired,
so the bounded GC can never collect it. -/
def safeRecorded (env : OtcEnv) (st : OtcState) (u : AccountId) (n : Nonce) : Prop :=
  (u, n) ∈ st.used_nonces ∧
  (∀ p ∈ bhList st u, p.2 = n → env.blockHeight ≤ p.1) ∧
  (∀ p ∈ tsList st u, p.2 = n → env.timestampMs ≤ p.1)

theorem mem_setRemove {α : Type} [DecidableEq α] (l : List α) (x y : α) :
    x ∈ setRemove l y ↔ x ∈ l ∧ x ≠ y := by
  simp [setRemove]

theorem mem_setInsert_self {α : Type} [DecidableEq α] (l : List α) (x : α) :
    x ∈ setInsert l x := by
  unfold setInsert
  by_cases h : x ∈ l
  · rwa [if_pos h]
  · rw [if_neg h]
    exact List.mem_cons_self _ _

theorem setInsert_of_not_mem {α : Type} [DecidableEq α] (l : List α) (x : α)
    (h : x ∉ l) : setInsert l x = x :: l := by
  unfold setInsert
  rw [if_neg h]

theorem mem_treeInsert (l : List (Nat × Nonce)) (k x : Nat × Nonce) :
    x ∈ treeInsert l k ↔ x ∈ l ∨ x = k := by
  induction l with
  | nil => simp [treeInsert]
  | cons k0 rest ih =>
      unfold treeInsert
      by_cases h1 : k = k0
      · subst h1
        rw [if_pos rfl]
        simp only [List.mem_cons]
        tauto
      · rw [if_neg h1]
        by_cases h2 : pairLt k k0
        · rw [if_pos h2]
          simp only [List.mem_cons]
          tauto
        · rw [if_neg h2]
          simp only [List.mem_cons, ih]
          tauto

theorem treeInsert_nodup (l : List (Nat × Nonce)) (k : Nat × Nonce)
    (hnd : l.Nodup) (hk : k ∉ l) : (treeInsert l k).Nodup := by
  induction l with
  | nil => simp [treeInsert]
  | cons k0 rest ih =>
      unfold treeInsert
      by_cases h1 : k = k0
      · subst h1
        exact absurd (List.mem_cons_self _ _) hk
      · rw [if_neg h1]
        rw [List.nodup_cons] at hnd
        by_cases h2 : pairLt k k0
        · rw [if_pos h2]
          rw [List.nodup_cons, List.nodup_cons]
          refine ⟨?_, hnd.1, hnd.2⟩
          intro hmem
          rcases List.mem_cons.mp hmem with h | h
          · exact h1 h
          · exact hk (List.mem_cons_of_mem _ h)
        · rw [if_neg h2]
          rw [List.nodup_cons]
          refine ⟨?_, ih hnd.2 (fun h => hk (List.mem_cons_of_mem _ h))⟩
          intro hmem
          rcases (mem_treeInsert rest k k0).mp hmem with h | h
          · exact hnd.1 h
          · exact h1 h.symm

/-- One expired-block-height GC iteration whose key is a present map key
keeps the invariant, keeps unaffected keys, and keeps every recorded pair
whose companion entries are unexpired. -/
theorem gcStepBH_facts (env : OtcEnv) (u : AccountId) (st : OtcState) (k : Nat × Nonce)
    (hwf : OtcNonceWF st) (hk : k ∈ bhList st u) :
    OtcNonceWF (gcStepBH env u st k) ∧
    (∀ p, p ∈ bhList st u → p ≠ k → p ∈ bhList (gcStepBH env u st k) u) ∧
    (∀ w n, safeRecorded env st w n → safeRecorded env (gcStepBH env u st k) w n) := by
  obtain ⟨hsync, huniq, hnod⟩ := hwf
  by_cases hlt : k.1 < env.blockHeight
  case neg =>
    have hstep : gcStepBH env u st k = st := by
      unfold gcStepBH
      rw [if_neg hlt]
    rw [hstep]
    exact ⟨⟨hsync, huniq, hnod⟩, fun p hp _ => hp, fun w n h => h⟩
  case pos =>
    have hbh_u : bhList (gcStepBH env u st k) u =
        (bhList st u).filter (fun p => p ≠ k) := by
      unfold gcStepBH bhList
      rw [if_pos hlt]
      dsimp only
      rw [lookupA_setA_self]
      rfl
    have hbh_w : ∀ w, w ≠ u → bhList (gcStepBH env u st k) w = bhList st w := by
      intro w hw
      unfold gcStepBH bhList
      rw [if_pos hlt]
      dsimp only
      rw [lookupA_setA_ne _ _ _ _ (fun he => hw he.symm)]
    have hts : ∀ w, tsList (gcStepBH env u st k) w = tsList st w := by
      intro w
      unfold gcStepBH tsList
      rw [if_pos hlt]
    have hused : (gcStepBH env u st k).used_nonces = setRemove st.used_nonces (u, k.2) := by
      unfold gcStepBH
      rw [if_pos hlt]
    have hsync2 : Sync (gcStepBH env u st k) := by
      intro w p hp
      rw [hused, mem_setRemove]
      by_cases hw : w = u
      · subst hw
        rcases hp with hp | hp
        · rw [hbh_u] at hp
          have hp2 : p ∈ bhList st w ∧ p ≠ k := by simpa using hp
          refine ⟨hsync w p (Or.inl hp2.1), ?_⟩
          intro he
          have hp2n : p.2 = k.2 := by simpa using congrArg Prod.snd he
          exact hp2.2 ((huniq w p k).1 hp2.1 hk hp2n)
        · rw [hts] at hp
          refine ⟨hsync w p (Or.inr hp), ?_⟩
          intro he
          have hp2n : p.2 = k.2 := by simpa using congrArg Prod.snd he
          exact (huniq w k p).2.2 hk hp hp2n.symm
      · rcases hp with hp | hp
        · rw [hbh_w w hw] at hp
          refine ⟨hsync w p (Or.inl hp), ?_⟩
          intro he
          exact hw (by simpa using congrArg Prod.fst he)
        · rw [hts] at hp
          refine ⟨hsync w p (Or.inr hp), ?_⟩
          intro he
          exact hw (by simpa using congrArg Prod.fst he)
    have huniq2 : UniqNonce (gcStepBH env u st k) := by
      intro w p q
      by_cases hw : w = u
      · subst hw
        refine ⟨?_, ?_, ?_⟩
        · intro hp hq he
          rw [hbh_u] at hp hq
          have hp2 : p ∈ bhList st w ∧ p ≠ k := by simpa using hp
          have hq2 : q ∈ bhList st w ∧ q ≠ k := by simpa using hq
          exact (huniq w p q).1 hp2.1 hq2.1 he
        · intro hp hq he
          rw [hts] at hp hq
          exact (huniq w p q).2.1 hp hq he
        · intro hp hq
          rw [hbh_u] at hp
          rw [hts] at hq
          have hp2 : p ∈ bhList st w ∧ p ≠ k := by simpa using hp
          exact (huniq w p q).2.2 hp2.1 hq
      · refine ⟨?_, ?_, ?_⟩
        · intro hp hq he
          rw [hbh_w w hw] at hp hq
          exact (huniq w p q).1 hp hq he
        · intro hp hq he
          rw [hts] at hp hq
          exact (huniq w p q).2.1 hp hq he
        · intro hp hq
          rw [hbh_w w hw] at hp
          rw [hts] at hq
          exact (huniq w p q).2.2 hp hq
    have hnod2 : NodupLists (gcStepBH env u st k) := by
      intro w
      by_cases hw : w = u
      · subst hw
        rw [hbh_u, hts]
        exact ⟨(hnod w).1.filter _, (hnod w).2⟩
      · rw [hbh_w w hw, hts]
        exact hnod w
    have hrem : ∀ p, p ∈ bhList st u → p ≠ k → p ∈ bhList (gcStepBH env u st k) u := by
      intro p hp hpk
      rw [hbh_u]
      simp only [List.mem_filter]
      exact ⟨hp, by simpa using hpk⟩
    have hsafe : ∀ w n, safeRecorded env st w n →
        safeRecorded env (gcStepBH env u st k) w n := by
      intro w n hs
      obtain ⟨x1, x2, x3⟩ := hs
      refine ⟨?_, ?_, ?_⟩
      · rw [hused, mem_setRemove]
        refine ⟨x1, ?_⟩
        intro he
        have hw : w = u := by simpa using congrArg Prod.fst he
        have hn : n = k.2 := by simpa using congrArg Prod.snd he
        subst hw
        exact absurd (x2 k hk hn.symm) (by omega)
      · intro p hp hpn
        by_cases hw : w = u
        · subst hw
          rw [hbh_u] at hp
          have hp2 : p ∈ bhList st w ∧ p ≠ k := by simpa using hp
          exact x2 p hp2.1 hpn
        · rw [hbh_w w hw] at hp
          exact x2 p hp hpn
      · intro p hp hpn
        rw [hts] at hp
        exact x3 p hp hpn
    exact ⟨⟨hsync2, huniq2, hnod2⟩, hrem, hsafe⟩

/-- Timestamp mirror of the GC step lemma. -/
theorem gcStepTS_facts (env : OtcEnv) (u : AccountId) (st : OtcState) (k : Nat × Nonce)
    (hwf : OtcNonceWF st) (hk : k ∈ tsList st u) :
    OtcNonceWF (gcStepTS env u st k) ∧
    (∀ p, p ∈ tsList st u → p ≠ k → p ∈ tsList (gcStepTS env u st k) u) ∧
    (∀ w n, safeRecorded env st w n → safeRecorded env (gcStepTS env u st k) w n) := by
  obtain ⟨hsync, huniq, hnod⟩ := hwf
  by_cases hlt : k.1 < env.timestampMs
  case neg =>
    have hstep : gcStepTS env u st k = st := by
      unfold gcStepTS
      rw [if_neg hlt]
    rw [hstep]
    exact ⟨⟨hsync, huniq, hnod⟩, fun p hp _ => hp, fun w n h => h⟩
  case pos =>
    have hts_u : tsList (gcStepTS env u st k) u =
        (tsList st u).filter (fun p => p ≠ k) := by
      unfold gcStepTS tsList
      rw [if_pos hlt]
      dsimp only
      rw [lookupA_setA_self]
      rfl
    have hts_w : ∀ w, w ≠ u → tsList (gcStepTS env u st k) w = tsList st w := by
      intro w hw
      unfold gcStepTS tsList
      rw [if_pos hlt]
      dsimp only
      rw [lookupA_setA_ne _ _ _ _ (fun he => hw he.symm)]
    have hbh : ∀ w, bhList (gcStepTS env u st k) w = bhList st w := by
      intro w
      unfold gcStepTS bhList
      rw [if_pos hlt]
    have hused : (gcStepTS env u st k).used_nonces = setRemove st.used_nonces (u, k.2) := by
      unfold gcStepTS
      rw [if_pos hlt]
    have hsync2 : Sync (gcStepTS env u st k) := by
      intro w p hp
      rw [hused, mem_setRemove]
      by_cases hw : w = u
      · subst hw
        rcases hp with hp | hp
        · rw [hbh] at hp
          refine ⟨hsync w p (Or.inl hp), ?_⟩
          intro he
          have hp2n : p.2 = k.2 := by simpa using congrArg Prod.snd he
          exact (huniq w p k).2.2 hp hk hp2n
        · rw [hts_u] at hp
          have hp2 : p ∈ tsList st w ∧ p ≠ k := by simpa using hp
          refine ⟨hsync w p (Or.inr hp2.1), ?_⟩
          intro he
          have hp2n : p.2 = k.2 := by simpa using congrArg Prod.snd he
          exact hp2.2 ((huniq w p k).2.1 hp2.1 hk hp2n)
      · rcases hp with hp | hp
        · rw [hbh] at hp
          refine ⟨hsync w p (Or.inl hp), ?_⟩
          intro he
          exact hw (by simpa using congrArg Prod.fst he)
        · rw [hts_w w hw] at hp
          refine ⟨hsync w p (Or.inr hp), ?_⟩
          intro he
          exact hw (by simpa using congrArg Prod.fst he)
    have huniq2 : UniqNonce (gcStepTS env u st k) := by
      intro w p q
      by_cases hw : w = u
      · subst hw
        refine ⟨?_, ?_, ?_⟩
        · intro hp hq he
          rw [hbh] at hp hq
          exact (huniq w p q).1 hp hq he
        · intro hp hq he
          rw [hts_u] at hp hq
          have hp2 : p ∈ tsList st w ∧ p ≠ k := by simpa using hp
          have hq2 : q ∈ tsList st w ∧ q ≠ k := by simpa using hq
          exact (huniq w p q).2.1 hp2.1 hq2.1 he
        · intro hp hq
          rw [hbh] at hp
          rw [hts_u] at hq
          have hq2 : q ∈ tsList st w ∧ q ≠ k := by simpa using hq
          exact (huniq w p q).2.2 hp hq2.1
      · refine ⟨?_, ?_, ?_⟩
        · intro hp hq he
          rw [hbh] at hp hq
          exact (huniq w p q).1 hp hq he
        · intro hp hq he
          rw [hts_w w hw] at hp hq
          exact (huniq w p q).2.1 hp hq he
        · intro hp hq
          rw [hbh] at hp
          rw [hts_w w hw] at hq
          exact (huniq w p q).2.2 hp hq
    have hnod2 : NodupLists (gcStepTS env u st k) := by
      intro w
      by_cases hw : w = u
      · subst hw
        rw [hbh, hts_u]
        exact ⟨(hnod w).1, (hnod w).2.filter _⟩
      · rw [hbh, hts_w w hw]
        exact hnod w
    have hrem : ∀ p, p ∈ tsList st u → p ≠ k → p ∈ tsList (gcStepTS env u st k) u := by
      intro p hp hpk
      rw [hts_u]
      simp only [List.mem_filter]
      exact ⟨hp, by simpa using hpk⟩
    have hsafe : ∀ w n, safeRecorded env st w n →
        safeRecorded env (gcStepTS env u st k) w n := by
      intro w n hs
      obtain ⟨x1, x2, x3⟩ := hs
      refine ⟨?_, ?_, ?_⟩
      · rw [hused, mem_setRemove]
        refine ⟨x1, ?_⟩
        intro he
        have hw : w = u := by simpa using congrArg Prod.fst he
        have hn : n = k.2 := by simpa using congrArg Prod.snd he
        subst hw
        exact absurd (x3 k hk hn.symm) (by omega)
      · intro p hp hpn
        rw [hbh] at hp
        exact x2 p hp hpn
      · intro p hp hpn
        by_cases hw : w = u
        · subst hw
          rw [hts_u] at hp
          have hp2 : p ∈ tsList st w ∧ p ≠ k := by simpa using hp
          exact x3 p hp2.1 hpn
        · rw [hts_w w hw] at hp
          exact x3 p hp hpn
    exact ⟨⟨hsync2, huniq2, hnod2⟩, hrem, hsafe⟩

theorem gcFoldBH_facts (env : OtcEnv) (u : AccountId) (keys : List (Nat × Nonce)) :
    ∀ st : OtcState, OtcNonceWF st → keys.Nodup → (∀ k ∈ keys, k ∈ bhList st u) →
    OtcNonceWF (keys.foldl (gcStepBH env u) st) ∧
    (∀ w n, safeRecorded env st w n →
      safeRecorded env (keys.foldl (gcStepBH env u) st) w n) := by
  induction keys with
  | nil =>
      intro st hwf _ _
      exact ⟨hwf, fun w n h => h⟩
  | cons k ks ih =>
      intro st hwf hnd hkeys
      obtain ⟨hwf2, hrem, hsafe⟩ := gcStepBH_facts env u st k hwf
        (hkeys k (List.mem_cons_self _ _))
      have hnd2 := List.nodup_cons.mp hnd
      have hkeys2 : ∀ k2 ∈ ks, k2 ∈ bhList (gcStepBH env u st k) u := by
        intro k2 hk2
        exact hrem k2 (hkeys k2 (List.mem_cons_of_mem _ hk2))
          (fun he => hnd2.1 (he ▸ hk2))
      obtain ⟨hwfF, hsafeF⟩ := ih (gcStepBH env u st k) hwf2 hnd2.2 hkeys2
      rw [List.foldl_cons]
      exact ⟨hwfF, fun w n h => hsafeF w n (hsafe w n h)⟩

theorem gcFoldTS_facts (env : OtcEnv) (u : AccountId) (keys : List (Nat × Nonce)) :
    ∀ st : OtcState, OtcNonceWF st → keys.Nodup → (∀ k ∈ keys, k ∈ tsList st u) →
    OtcNonceWF (keys.foldl (gcStepTS env u) st) ∧
    (∀ w n, safeRecorded env st w n →
      safeRecorded env (keys.foldl (gcStepTS env u) st) w n) := by
  induction keys with
  | nil =>
      intro st hwf _ _
      exact ⟨hwf, fun w n h => h⟩
  | cons k ks ih =>
      intro st hwf hnd hkeys
      obtain ⟨hwf2, hrem, hsafe⟩ := gcStepTS_facts env u st k hwf
        (hkeys k (List.mem_cons_self _ _))
      have hnd2 := List.nodup_cons.mp hnd
      have hkeys2 : ∀ k2 ∈ ks, k2 ∈ tsList (gcStepTS env u st k) u := by
        intro k2 hk2
        exact hrem k2 (hkeys k2 (List.mem_cons_of_mem _ hk2))
          (fun he => hnd2.1 (he ▸ hk2))
      obtain ⟨hwfF, hsafeF⟩ := ih (gcStepTS env u st k) hwf2 hnd2.2 hkeys2
      rw [List.foldl_cons]
      exact ⟨hwfF, fun w n h => hsafeF w n (hsafe w n h)⟩

/-- The bounded block-height GC keeps the invariant and keeps every
unexpired recorded pair. -/
theorem gcExpiredBH_facts (env : OtcEnv) (st : OtcState) (u : AccountId)
    (hwf : OtcNonceWF st) :
    OtcNonceWF (gcExpiredBH env st u) ∧
    (∀ w n, safeRecorded env st w n → safeRecorded env (gcExpiredBH env st u) w n) := by
  unfold gcExpiredBH
  cases hm : lookupA st.used_expirable_nonces_block_height u with
  | none => exact ⟨hwf, fun w n h => h⟩
  | some m =>
      have hml : bhList st u = m := by
        unfold bhList
        rw [hm]
        rfl
      apply gcFoldBH_facts env u (m.take NONCES_TO_REMOVE_AT_ONCE) st hwf
      · have hnodm : m.Nodup := by
          have := (hwf.2.2 u).1
          rwa [hml] at this
        exact hnodm.sublist (List.take_sublist _ _)
      · intro k hk
        rw [hml]
        exact List.take_subset _ _ hk

/-- The bounded timestamp GC keeps the invariant and keeps every
unexpired recorded pair. -/
theorem gcExpiredTS_facts (env : OtcEnv) (st : OtcState) (u : AccountId)
    (hwf : OtcNonceWF st) :
    OtcNonceWF (gcExpiredTS env st u) ∧
    (∀ w n, safeRecorded env st w n → safeRecorded env (gcExpiredTS env st u) w n) := by
  unfold gcExpiredTS
  cases hm : lookupA st.used_expirable_nonces_timestamp_millis u with
  | none => exact ⟨hwf, fun w n h => h⟩
  | some m =>
      have hml : tsList st u = m := by
        unfold tsList
        rw [hm]
        rfl
      apply gcFoldTS_facts env u (m.take NONCES_TO_REMOVE_AT_ONCE) st hwf
      · have hnodm : m.Nodup := by
          have := (hwf.2.2 u).2
          rwa [hml] at this
        exact hnodm.sublist (List.take_sublist _ _)
      · intro k hk
        rw [hml]
        exact List.take_subset _ _ hk

/-- A state equal to another on the three nonce fields carries the
invariant and recorded-pair safety. -/
theorem nonce_transport (st st2 : OtcState)
    (h1 : st2.used_nonces = st.used_nonces)
    (h2 : st2.used_expirable_nonces_block_height = st.used_expirable_nonces_block_height)
    (h3 : st2.used_expirable_nonces_timestamp_millis =
      st.used_expirable_nonces_timestamp_millis) :
    (OtcNonceWF st → OtcNonceWF st2) ∧
    (∀ env w n, safeRecorded env st w n → safeRecorded env st2 w n) := by
  have hb : ∀ u, bhList st2 u = bhList st u := by
    intro u
    unfold bhList
    rw [h2]
  have ht : ∀ u, tsList st2 u = tsList st u := by
    intro u
    unfold tsList
    rw [h3]
  constructor
  · intro hwf
    obtain ⟨hs, hu, hn⟩ := hwf
    refine ⟨?_, ?_, ?_⟩
    · intro u p hp
      rw [h1]
      rw [hb u, ht u] at hp
      exact hs u p hp
    · intro u p q
      rw [hb u, ht u]
      exact hu u p q
    · intro u
      rw [hb u, ht u]
      exact hn u
  · intro env w n hs
    obtain ⟨x1, x2, x3⟩ := hs
    refine ⟨?_, ?_, ?_⟩
    · rw [h1]
      exact x1
    · rw [hb w]
      exact x2
    · rw [ht w]
      exact x3

/-- The input-side debit touches only `balances`. -/
theorem debitIn_nonce_frame (env : OtcEnv) (st : OtcState) (i : AuthorizedTradeIntent)
    (aa : Bool) (st2 : OtcState) (h : debitIn env st i aa = .ok st2) :
    st2.used_nonces = st.used_nonces ∧
    st2.used_expirable_nonces_block_height = st.used_expirable_nonces_block_height ∧
    st2.used_expirable_nonces_timestamp_millis =
      st.used_expirable_nonces_timestamp_millis := by
  unfold debitIn at h
  dsimp only at h
  repeat' split at h
  all_goals cases h
  all_goals exact ⟨rfl, rfl, rfl⟩

/-- The storage charge touches only `storage_balances`. -/
theorem charge_nonce_frame (bc : Nat) (st : OtcState) (b a : Nat) (p : AccountId)
    (st2 : OtcState) (h : otc_charge_storage_deposit bc st b a p = .ok st2) :
    st2.used_nonces = st.used_nonces ∧
    st2.used_expirable_nonces_block_height = st.used_expirable_nonces_block_height ∧
    st2.used_expirable_nonces_timestamp_millis =
      st.used_expirable_nonces_timestamp_millis := by
  unfold otc_charge_storage_deposit at h
  dsimp only at h
  repeat' split at h
  all_goals cases h
  all_goals exact ⟨rfl, rfl, rfl⟩

/-- The output side touches only `balances` and `storage_balances`. -/
theorem creditOut_nonce_frame (env : OtcEnv) (st : OtcState) (i : AuthorizedTradeIntent)
    (dest : OutputDestination) (reqs : List AssetWithdrawRequest) (c : Nat)
    (st2 : OtcState) (reqs2 : List AssetWithdrawRequest) (c2 : Nat)
    (h : creditOut env st i dest reqs c = .ok (st2, reqs2, c2)) :
    st2.used_nonces = st.used_nonces ∧
    st2.used_expirable_nonces_block_height = st.used_expirable_nonces_block_height ∧
    st2.used_expirable_nonces_timestamp_millis =
      st.used_expirable_nonces_timestamp_millis := by
  unfold creditOut at h
  dsimp only at h
  split at h
  · cases h
    exact ⟨rfl, rfl, rfl⟩
  · split at h
    · cases h
      exact ⟨rfl, rfl, rfl⟩
    · split at h
      · cases h
      · rename_i stMid hMid
        split at h
        · cases h
        · rename_i st3 hchg
          cases h
          obtain ⟨f1, f2, f3⟩ := charge_nonce_frame _ _ _ _ _ _ hchg
          split at hMid
          · cases hMid
            exact ⟨f1, f2, f3⟩
          · split at hMid
            · cases hMid
            · cases hMid
              exact ⟨f1, f2, f3⟩

/-- A validated intent's expiry has not passed (block height inclusive,
timestamp strict), exactly the coordinates the GC tests. -/
theorem validateIntent_expiry (env : OtcEnv) (st : OtcState) (i : AuthorizedTradeIntent)
    (users : List AccountId) (v : Unit) (h : validateIntent env st i users = .ok v) :
    (∀ bh, i.trade_intent.validity.expiry = some (.blockHeight bh) →
      env.blockHeight ≤ bh) ∧
    (∀ ms, i.trade_intent.validity.expiry = some (.timestamp ms) →
      env.timestampMs < ms) := by
  unfold validateIntent at h
  dsimp only at h
  constructor
  · intro bh hbh
    rw [hbh] at h
    dsimp only at h
    by_cases hc : env.blockHeight ≤ bh
    · exact hc
    · exfalso
      rw [if_neg hc] at h
      dsimp only at h
      cases h
  · intro ms hms
    rw [hms] at h
    dsimp only at h
    by_cases hc : env.timestampMs < ms
    · exact hc
    · exfalso
      rw [if_neg hc] at h
      dsimp only at h
      cases h

theorem nonceCheckRecord_none (st : OtcState) (i : AuthorizedTradeIntent)
    (h : i.trade_intent.validity.nonce = none) : nonceCheckRecord st i = .ok st := by
  unfold nonceCheckRecord
  rw [h]

theorem nonceCheckRecord_used (st : OtcState) (i : AuthorizedTradeIntent) (n : Nonce)
    (hn : i.trade_intent.validity.nonce = some n)
    (hu : (i.trade_intent.user_id, n) ∈ st.used_nonces) :
    nonceCheckRecord st i = .error "Intent not authorized: Nonce already used" := by
  unfold nonceCheckRecord
  rw [hn]
  dsimp only
  rw [if_pos hu]

/-- A fresh nonce is recorded into the used set and, with an expiry, into
the matching companion sequence. -/
theorem nonceCheckRecord_fresh (st : OtcState) (i : AuthorizedTradeIntent) (n : Nonce)
    (hn : i.trade_intent.validity.nonce = some n)
    (hu : (i.trade_intent.user_id, n) ∉ st.used_nonces) :
    ∃ st2, nonceCheckRecord st i = .ok st2 ∧
      (i.trade_intent.user_id, n) ∈ st2.used_nonces ∧
      (∀ bh, i.trade_intent.validity.expiry = some (.blockHeight bh) →
        (bh, n) ∈ bhList st2 i.trade_intent.user_id) ∧
      (∀ ms, i.trade_intent.validity.expiry = some (.timestamp ms) →
        (ms, n) ∈ tsList st2 i.trade_intent.user_id) := by
  unfold nonceCheckRecord
  rw [hn]
  dsimp only
  rw [if_neg hu]
  cases hexp : i.trade_intent.validity.expiry with
  | none =>
      refine ⟨_, rfl, mem_setInsert_self _ _, ?_, ?_⟩
      · intro bh habs
        cases habs
      · intro ms habs
        cases habs
  | some ec =>
      cases ec with
      | blockHeight bh0 =>
          refine ⟨_, rfl, mem_setInsert_self _ _, ?_, ?_⟩
          · intro bh habs
            have hb : bh0 = bh := by
              injection habs with habs2
              injection habs2
            subst hb
            unfold bhList
            dsimp only
            rw [lookupA_setA_self]
            exact (mem_treeInsert _ _ _).mpr (Or.inr rfl)
          · intro ms habs
            injection habs with habs2
            cases habs2
      | timestamp ms0 =>
          refine ⟨_, rfl, mem_setInsert_self _ _, ?_, ?_⟩
          · intro bh habs
            injection habs with habs2
            cases habs2
          · intro ms habs
            have hb : ms0 = ms := by
              injection habs with habs2
              injection habs2
            subst hb
            unfold tsList
            dsimp only
            rw [lookupA_setA_self]
            exact (mem_treeInsert _ _ _).mpr (Or.inr rfl)

/-- Recording a fresh `(u, n)` — used-set cons plus at most one unexpired
companion insertion — keeps the invariant, keeps previously safe pairs,
and makes `(u, n)` safe. -/
theorem record_aux (env : OtcEnv) (st st4 : OtcState) (u : AccountId) (n : Nonce)
    (hwf : OtcNonceWF st)
    (hu : (u, n) ∉ st.used_nonces)
    (husd : st4.used_nonces = (u, n) :: st.used_nonces)
    (hb : ∀ w, w ≠ u → bhList st4 w = bhList st w)
    (ht : ∀ w, w ≠ u → tsList st4 w = tsList st w)
    (hbu : bhList st4 u = bhList st u ∨
      ∃ e, env.blockHeight ≤ e ∧ bhList st4 u = treeInsert (bhList st u) (e, n))
    (htu : tsList st4 u = tsList st u ∨
      ∃ e, env.timestampMs ≤ e ∧ tsList st4 u = treeInsert (tsList st u) (e, n))
    (hone : bhList st4 u = bhList st u ∨ tsList st4 u = tsList st u) :
    OtcNonceWF st4 ∧
    (∀ w m, safeRecorded env st w m → safeRecorded env st4 w m) ∧
    safeRecorded env st4 u n := by
  obtain ⟨hsync, huniq, hnod⟩ := hwf
  have hfbh : ∀ p ∈ bhList st u, p.2 ≠ n := fun p hp he =>
    hu (he ▸ hsync u p (Or.inl hp))
  have hfts : ∀ p ∈ tsList st u, p.2 ≠ n := fun p hp he =>
    hu (he ▸ hsync u p (Or.inr hp))
  rcases hbu with hbue | ⟨e, hle, hbeq⟩
  ·
    rcases htu with htue | ⟨e, hle, hteq⟩
    ·
      -- no companion insertion
      refine ⟨⟨?_, ?_, ?_⟩, ?_, ?_, ?_, ?_⟩
      · intro w p hp
        rw [husd]
        by_cases hw : w = u
        · subst hw
          rw [hbue, htue] at hp
          exact List.mem_cons_of_mem _ (hsync w p hp)
        · rw [hb w hw, ht w hw] at hp
          exact List.mem_cons_of_mem _ (hsync w p hp)
      · intro w p q
        by_cases hw : w = u
        · subst hw
          rw [hbue, htue]
          exact huniq w p q
        · rw [hb w hw, ht w hw]
          exact huniq w p q
      · intro w
        by_cases hw : w = u
        · subst hw
          rw [hbue, htue]
          exact hnod w
        · rw [hb w hw, ht w hw]
          exact hnod w
      · intro w m hs
        obtain ⟨x1, x2, x3⟩ := hs
        refine ⟨?_, ?_, ?_⟩
        · rw [husd]
          exact List.mem_cons_of_mem _ x1
        · intro p hp hpn
          by_cases hw : w = u
          · subst hw
            rw [hbue] at hp
            exact x2 p hp hpn
          · rw [hb w hw] at hp
            exact x2 p hp hpn
        · intro p hp hpn
          by_cases hw : w = u
          · subst hw
            rw [htue] at hp
            exact x3 p hp hpn
          · rw [ht w hw] at hp
            exact x3 p hp hpn
      · rw [husd]
        exact List.mem_cons_self _ _
      · intro p hp hpn
        rw [hbue] at hp
        exact absurd hpn (hfbh p hp)
      · intro p hp hpn
        rw [htue] at hp
        exact absurd hpn (hfts p hp)
    ·
      -- timestamp companion insertion
      have hmt : ∀ p, p ∈ tsList st4 u ↔ p ∈ tsList st u ∨ p = (e, n) := by
        intro p
        rw [hteq]
        exact mem_treeInsert _ _ _
      have hbue2 : bhList st4 u = bhList st u := hbue
      refine ⟨⟨?_, ?_, ?_⟩, ?_, ?_, ?_, ?_⟩
      · intro w p hp
        rw [husd]
        by_cases hw : w = u
        · subst hw
          rcases hp with hp | hp
          · rw [hbue2] at hp
            exact List.mem_cons_of_mem _ (hsync w p (Or.inl hp))
          · rcases (hmt p).mp hp with hpo | hpe
            · exact List.mem_cons_of_mem _ (hsync w p (Or.inr hpo))
            · subst hpe
              exact List.mem_cons_self _ _
        · rw [hb w hw, ht w hw] at hp
          exact List.mem_cons_of_mem _ (hsync w p hp)
      · intro w p q
        by_cases hw : w = u
        · subst hw
          refine ⟨?_, ?_, ?_⟩
          · intro hp hq he
            rw [hbue2] at hp hq
            exact (huniq w p q).1 hp hq he
          · intro hp hq he
            rcases (hmt p).mp hp with hpo | hpe <;> rcases (hmt q).mp hq with hqo | hqe
            · exact (huniq w p q).2.1 hpo hqo he
            · subst hqe
              exact absurd he (hfts p hpo)
            · subst hpe
              exact absurd he.symm (hfts q hqo)
            · subst hpe
              subst hqe
              rfl
          · intro hp hq
            rw [hbue2] at hp
            rcases (hmt q).mp hq with hqo | hqe
            · exact (huniq w p q).2.2 hp hqo
            · subst hqe
              exact hfbh p hp
        · rw [hb w hw, ht w hw]
          exact huniq w p q
      · intro w
        by_cases hw : w = u
        · subst hw
          rw [hbue2, hteq]
          refine ⟨(hnod w).1, treeInsert_nodup _ _ (hnod w).2 ?_⟩
          intro hmem
          exact hfts _ hmem rfl
        · rw [hb w hw, ht w hw]
          exact hnod w
      · intro w m hs
        obtain ⟨x1, x2, x3⟩ := hs
        refine ⟨?_, ?_, ?_⟩
        · rw [husd]
          exact List.mem_cons_of_mem _ x1
        · intro p hp hpn
          by_cases hw : w = u
          · subst hw
            rw [hbue2] at hp
            exact x2 p hp hpn
          · rw [hb w hw] at hp
            exact x2 p hp hpn
        · intro p hp hpn
          by_cases hw : w = u
          · subst hw
            rcases (hmt p).mp hp with hpo | hpe
            · exact x3 p hpo hpn
            · subst hpe
              exact hle
          · rw [ht w hw] at hp
            exact x3 p hp hpn
      · rw [husd]
        exact List.mem_cons_self _ _
      · intro p hp hpn
        rw [hbue2] at hp
        exact absurd hpn (hfbh p hp)
      · intro p hp hpn
        rcases (hmt p).mp hp with hpo | hpe
        · exact absurd hpn (hfts p hpo)
        · subst hpe
          exact hle
  ·
    rcases hone with hbue | htue
    ·
      -- both a block-height insertion equation and an unchanged equation:
      -- the inserted key would be an existing nonce-n entry, impossible
      exfalso
      have hmem : (e, n) ∈ bhList st u := by
        rw [← hbue, hbeq]
        exact (mem_treeInsert _ _ _).mpr (Or.inr rfl)
      exact hfbh _ hmem rfl
    ·
      -- block-height companion insertion
      have hmb : ∀ p, p ∈ bhList st4 u ↔ p ∈ bhList st u ∨ p = (e, n) := by
        intro p
        rw [hbeq]
        exact mem_treeInsert _ _ _
      refine ⟨⟨?_, ?_, ?_⟩, ?_, ?_, ?_, ?_⟩
      · intro w p hp
        rw [husd]
        by_cases hw : w = u
        · subst hw
          rcases hp with hp | hp
          · rcases (hmb p).mp hp with hpo | hpe
            · exact List.mem_cons_of_mem _ (hsync w p (Or.inl hpo))
            · subst hpe
              exact List.mem_cons_self _ _
          · rw [htue] at hp
            exact List.mem_cons_of_mem _ (hsync w p (Or.inr hp))
        · rw [hb w hw, ht w hw] at hp
          exact List.mem_cons_of_mem _ (hsync w p hp)
      · intro w p q
        by_cases hw : w = u
        · subst hw
          refine ⟨?_, ?_, ?_⟩
          · intro hp hq he
            rcases (hmb p).mp hp with hpo | hpe <;> rcases (hmb q).mp hq with hqo | hqe
            · exact (huniq w p q).1 hpo hqo he
            · subst hqe
              exact absurd he (hfbh p hpo)
            · subst hpe
              exact absurd he.symm (hfbh q hqo)
            · subst hpe
              subst hqe
              rfl
          · intro hp hq he
            rw [htue] at hp hq
            exact (huniq w p q).2.1 hp hq he
          · intro hp hq
            rw [htue] at hq
            rcases (hmb p).mp hp with hpo | hpe
            · exact (huniq w p q).2.2 hpo hq
            · subst hpe
              exact fun he2 => hfts q hq he2.symm
        · rw [hb w hw, ht w hw]
          exact huniq w p q
      · intro w
        by_cases hw : w = u
        · subst hw
          rw [hbeq, htue]
          refine ⟨treeInsert_nodup _ _ (hnod w).1 ?_, (hnod w).2⟩
          intro hmem
          exact hfbh _ hmem rfl
        · rw [hb w hw, ht w hw]
          exact hnod w
      · intro w m hs
        obtain ⟨x1, x2, x3⟩ := hs
        refine ⟨?_, ?_, ?_⟩
        · rw [husd]
          exact List.mem_cons_of_mem _ x1
        · intro p hp hpn
          by_cases hw : w = u
          · subst hw
            rcases (hmb p).mp hp with hpo | hpe
            · exact x2 p hpo hpn
            · subst hpe
              exact hle
          · rw [hb w hw] at hp
            exact x2 p hp hpn
        · intro p hp hpn
          by_cases hw : w = u
          · subst hw
            rw [htue] at hp
            exact x3 p hp hpn
          · rw [ht w hw] at hp
            exact x3 p hp hpn
      · rw [husd]
        exact List.mem_cons_self _ _
      · intro p hp hpn
        rcases (hmb p).mp hp with hpo | hpe
        · exact absurd hpn (hfbh p hpo)
        · subst hpe
          exact hle
      · intro p hp hpn
        rw [htue] at hp
        exact absurd hpn (hfts p hp)

/-- A successful nonce check and record keeps the invariant, keeps safe
pairs, and leaves the recorded nonce safe. -/
theorem nonceCheckRecord_ok_wf (env : OtcEnv) (st : OtcState) (i : AuthorizedTradeIntent)
    (st4 : OtcState) (h : nonceCheckRecord st i = .ok st4)
    (hwf : OtcNonceWF st)
    (hexpbh : ∀ bh, i.trade_intent.validity.expiry = some (.blockHeight bh) →
      env.blockHeight ≤ bh)
    (hexpts : ∀ ms, i.trade_intent.validity.expiry = some (.timestamp ms) →
      env.timestampMs ≤ ms) :
    OtcNonceWF st4 ∧
    (∀ w m, safeRecorded env st w m → safeRecorded env st4 w m) ∧
    (∀ n, i.trade_intent.validity.nonce = some n →
      safeRecorded env st4 i.trade_intent.user_id n) := by
  cases hn : i.trade_intent.validity.nonce with
  | none =>
      rw [nonceCheckRecord_none st i hn] at h
      cases h
      refine ⟨hwf, fun w m hs => hs, ?_⟩
      intro n habs
      cases habs
  | some n =>
      unfold nonceCheckRecord at h
      rw [hn] at h
      dsimp only at h
      by_cases hu : (i.trade_intent.user_id, n) ∈ st.used_nonces
      · rw [if_pos hu] at h
        cases h
      · rw [if_neg hu] at h
        cases hexp : i.trade_intent.validity.expiry with
        | none =>
            rw [hexp] at h
            dsimp only at h
            injection h with h2
            have hrec := record_aux env st st4 i.trade_intent.user_id n hwf hu
              (by
                rw [← h2]
                dsimp only
                rw [setInsert_of_not_mem _ _ hu])
              (fun w _ => by rw [← h2]; rfl) (fun w _ => by rw [← h2]; rfl)
              (Or.inl (by rw [← h2]; rfl)) (Or.inl (by rw [← h2]; rfl)) (Or.inl (by rw [← h2]; rfl))
            refine ⟨hrec.1, hrec.2.1, ?_⟩
            intro n2 hn2
            injection hn2 with hn3
            subst hn3
            exact hrec.2.2
        | some ec =>
            cases ec with
            | blockHeight bh0 =>
                rw [hexp] at h
                dsimp only at h
                injection h with h2
                have hrec := record_aux env st st4 i.trade_intent.user_id n hwf hu
                  (by
                    rw [← h2]
                    dsimp only
                    rw [setInsert_of_not_mem _ _ hu])
                  (by
                    intro w hw
                    rw [← h2]
                    unfold bhList
                    dsimp only
                    rw [lookupA_setA_ne _ _ _ _ (fun he => hw he.symm)])
                  (fun w _ => by rw [← h2]; rfl)
                  (Or.inr ⟨bh0, hexpbh bh0 hexp, by
                    rw [← h2]
                    unfold bhList
                    dsimp only
                    rw [lookupA_setA_self]
                    rfl⟩)
                  (Or.inl (by rw [← h2]; rfl)) (Or.inr (by rw [← h2]; rfl))
                refine ⟨hrec.1, hrec.2.1, ?_⟩
                intro n2 hn2
                injection hn2 with hn3
                subst hn3
                exact hrec.2.2
            | timestamp ms0 =>
                rw [hexp] at h
                dsimp only at h
                injection h with h2
                have hrec := record_aux env st st4 i.trade_intent.user_id n hwf hu
                  (by
                    rw [← h2]
                    dsimp only
                    rw [setInsert_of_not_mem _ _ hu])
                  (fun w _ => by rw [← h2]; rfl)
                  (by
                    intro w hw
                    rw [← h2]
                    unfold tsList
                    dsimp only
                    rw [lookupA_setA_ne _ _ _ _ (fun he => hw he.symm)])
                  (Or.inl (by rw [← h2]; rfl))
                  (Or.inr ⟨ms0, hexpts ms0 hexp, by
                    rw [← h2]
                    unfold tsList
                    dsimp only
                    rw [lookupA_setA_self]
                    rfl⟩)
                  (Or.inl (by rw [← h2]; rfl))
                refine ⟨hrec.1, hrec.2.1, ?_⟩
                intro n2 hn2
                injection hn2 with hn3
                subst hn3
                exact hrec.2.2

/-- Loop invariant: the nonce bookkeeping is well formed and every pair
named by `Q` is recorded with unexpired companions. -/
def Inv (env : OtcEnv) (Q : AccountId → Nonce → Prop) (st : OtcState) : Prop :=
  OtcNonceWF st ∧ ∀ w n, Q w n → safeRecorded env st w n

theorem Inv_mono (env : OtcEnv) (Q Q2 : AccountId → Nonce → Prop) (st : OtcState)
    (h : Inv env Q st) (himp : ∀ w n, Q2 w n → Q w n) : Inv env Q2 st :=
  ⟨h.1, fun w n hq => h.2 w n (himp w n hq)⟩

/-- Processing one intent preserves the invariant and adds the intent's
own nonce pair (when set) to the recorded set. -/
theorem processIntent_inv (env : OtcEnv) (aa : Bool) (dest : OutputDestination)
    (users : List AccountId) (acc : OtcState × List AssetWithdrawRequest × Nat)
    (i : AuthorizedTradeIntent) (acc2 : OtcState × List AssetWithdrawRequest × Nat)
    (h : processIntent env aa dest users acc i = .ok acc2)
    (Q : AccountId → Nonce → Prop) (hinv : Inv env Q acc.1) :
    Inv env (fun w n => Q w n ∨
      (w = i.trade_intent.user_id ∧ i.trade_intent.validity.nonce = some n)) acc2.1 := by
  unfold processIntent at h
  dsimp only at h
  split at h
  · cases h
  · rename_i v hval
    split at h
    · cases h
    · rename_i st1 hdeb
      split at h
      · cases h
      · rename_i st2 reqs2 c2 hcred
        split at h
        · cases h
        · rename_i st4 hncr
          split at h
          · cases h
          · rename_i st5 hchg
            cases h
            obtain ⟨hexpbh, hexpts⟩ := validateIntent_expiry env acc.1 i users v hval
            obtain ⟨d1, d2, d3⟩ := debitIn_nonce_frame env acc.1 i aa st1 hdeb
            obtain ⟨dwf, dsafe⟩ := nonce_transport acc.1 st1 d1 d2 d3
            obtain ⟨e1, e2, e3⟩ := creditOut_nonce_frame env st1 i dest acc.2.1 acc.2.2
              st2 reqs2 c2 hcred
            obtain ⟨ewf, esafe⟩ := nonce_transport st1 st2 e1 e2 e3
            have hwf2 : OtcNonceWF st2 := ewf (dwf hinv.1)
            obtain ⟨gwf1, gsafe1⟩ :=
              gcExpiredBH_facts env st2 i.trade_intent.user_id hwf2
            obtain ⟨gwf2, gsafe2⟩ := gcExpiredTS_facts env
              (gcExpiredBH env st2 i.trade_intent.user_id) i.trade_intent.user_id gwf1
            obtain ⟨nwf, nsafe, nnew⟩ := nonceCheckRecord_ok_wf env _ i st4 hncr gwf2
              hexpbh (fun ms hms => le_of_lt (hexpts ms hms))
            obtain ⟨c1, c2f, c3f⟩ := charge_nonce_frame env.byteCost st4 _ _
              i.trade_intent.user_id st5 hchg
            obtain ⟨cwf, csafe⟩ := nonce_transport st4 st5 c1 c2f c3f
            refine ⟨cwf nwf, ?_⟩
            intro w n hq
            rcases hq with hq | ⟨hw, hnn⟩
            · exact csafe env w n (nsafe w n (gsafe2 w n (gsafe1 w n
                (esafe env w n (dsafe env w n (hinv.2 w n hq))))))
            · subst hw
              exact csafe env _ n (nnew n hnn)

def processIntents_pairs (l : List AuthorizedTradeIntent) (w : AccountId) (n : Nonce) :
    Prop :=
  ∃ i ∈ l, w = i.trade_intent.user_id ∧ i.trade_intent.validity.nonce = some n

/-- The intent loop preserves the invariant and records every nonce named
by a validity in the batch. -/
theorem processIntents_inv (env : OtcEnv) (aa : Bool) (dest : OutputDestination)
    (users : List AccountId) :
    ∀ (l : List AuthorizedTradeIntent) (acc acc2 : OtcState × List AssetWithdrawRequest × Nat)
      (Q : AccountId → Nonce → Prop),
    processIntents env aa dest users l acc = .ok acc2 → Inv env Q acc.1 →
    Inv env (fun w n => Q w n ∨ processIntents_pairs l w n) acc2.1 := by
  intro l
  induction l with
  | nil =>
      intro acc acc2 Q h hinv
      cases h
      refine Inv_mono env Q _ _ hinv ?_
      intro w n hq
      rcases hq with hq | ⟨j, hj, _⟩
      · exact hq
      · cases hj
  | cons i rest ih =>
      intro acc acc2 Q h hinv
      unfold processIntents at h
      split at h
      · cases h
      · rename_i accMid hstep
        have h1 := processIntent_inv env aa dest users acc i accMid hstep Q hinv
        have h2 := ih accMid acc2 _ h h1
        refine Inv_mono env _ _ _ h2 ?_
        intro w n hq
        rcases hq with hq | ⟨j, hj, hw, hnn⟩
        · exact Or.inl (Or.inl hq)
        · rcases List.mem_cons.mp hj with hj2 | hj2
          · subst hj2
            exact Or.inl (Or.inr ⟨hw, hnn⟩)
          · exact Or.inr ⟨j, hj2, hw, hnn⟩

/-- Fixed host context for the OTC tenant examples. -/
def otcEnvW : OtcEnv :=
  { predecessor := "alice", blockHeight := 100, timestampMs := 1000,
    attachedDeposit := 1, byteCost := 1, usage := fun _ => 0,
    sigOk := fun _ _ _ => true }

def otcStEmpty : OtcState :=
  { balances := [], authorized_keys := [], storage_balances := [],
    used_expirable_nonces_block_height := [],
    used_expirable_nonces_timestamp_millis := [], used_nonces := [] }

/-- Validity with nothing set. -/
def validityNone : Validity :=
  { expiry := none, nonce := none, only_for_whitelisted_parties := none }

/-- An intent that nets −1 NEAR (sells 2, buys 1). -/
def otcIntentBad : AuthorizedTradeIntent :=
  { trade_intent :=
      { user_id := "alice", asset_in := .near, asset_out := .near,
        amount_in := 2, amount_out := 1, validity := validityNone },
    authorization_method := .predecessor }

def otcArgsBad : MatchArgs :=
  { authorized_trade_intents := [otcIntentBad],
    output_destination := .intearDexBalance }

/-- Validity carrying only nonce 1. -/
def validityNonce1 : Validity :=
  { expiry := none, nonce := some 1, only_for_whitelisted_parties := none }

/-- A balanced intent (1 NEAR in, 1 NEAR out) guarded by nonce 1. -/
def otcIntentNonce : AuthorizedTradeIntent :=
  { trade_intent :=
      { user_id := "alice", asset_in := .near, asset_out := .near,
        amount_in := 1, amount_out := 1, validity := validityNonce1 },
    authorization_method := .predecessor }

def otcArgsNonce : MatchArgs :=
  { authorized_trade_intents := [otcIntentNonce],
    output_destination := .intearDexBalance }

/-- State where nonce 1 is already consumed. -/
def otcStUsed : OtcState :=
  { balances := [], authorized_keys := [], storage_balances := [],
    used_expirable_nonces_block_height := [],
    used_expirable_nonces_timestamp_millis := [],
    used_nonces := [("alice", 1)] }

/-- State where alice holds 5 NEAR in the tenant. -/
def otcStBal : OtcState :=
  { balances := [(("alice", AssetId.near), 5)], authorized_keys := [],
    storage_balances := [], used_expirable_nonces_block_height := [],
    used_expirable_nonces_timestamp_millis := [], used_nonces := [] }

/-- The state after matching `otcArgsNonce` on `otcStBal`. -/
def otcStFinal : OtcState :=
  { balances := [(("alice", AssetId.near), 4)], authorized_keys := [],
    storage_balances := [], used_expirable_nonces_block_height := [],
    used_expirable_nonces_timestamp_millis := [],
    used_nonces := [("alice", 1)] }

theorem otcStBal_wf : OtcNonceWF otcStBal := by
  refine ⟨?_, ?_, ?_⟩
  · intro u p hp
    rcases hp with hp | hp <;> simp [bhList, tsList, otcStBal, lookupA] at hp
  · intro u p q
    refine ⟨?_, ?_, ?_⟩ <;> intro hp <;>
      simp [bhList, tsList, otcStBal, lookupA] at hp
  · intro u
    constructor <;> simp [bhList, tsList, otcStBal, lookupA]

end Otc

/-- **C3.** Net-zero check of the intent tenant's `match`: with 128-bit
representable amounts and the borsh `u32` bound on the batch length, the
signed 256-bit net-change accumulation (the source enters `amount_in`
negative and `amount_out` positive, the negation of the spec's reading,
which leaves the zero test unchanged) never overflows and computes
`Σ amount_out − Σ amount_in` per asset; its entries are all zero exactly
when for every asset the `amount_in` sum equals the `amount_out` sum, and
when that fails `match` fails, before any balance mutation (the model
returns no state on error). -/
theorem c3_net_zero_check (env : Otc.OtcEnv) (st : Otc.OtcState)
    (attached : List (AssetId × Nat)) (args : Otc.MatchArgs) (c : Nat)
    (hamounts : ∀ i ∈ args.authorized_trade_intents,
      i.trade_intent.amount_in < U128LIM ∧ i.trade_intent.amount_out < U128LIM)
    (hlen : args.authorized_trade_intents.length ≤ 2 ^ 32) :
    ∃ net, Otc.assetsNetChange args.authorized_trade_intents [] = .ok net ∧
      (∀ a, Otc.valOf net a = (Otc.sumAmountOut args.authorized_trade_intents a : Int) -
        (Otc.sumAmountIn args.authorized_trade_intents a : Int)) ∧
      ((∀ kv ∈ net, kv.2 = (0 : Int)) ↔
        ∀ a, Otc.sumAmountIn args.authorized_trade_intents a =
          Otc.sumAmountOut args.authorized_trade_intents a) ∧
      ((¬ ∀ a, Otc.sumAmountIn args.authorized_trade_intents a =
          Otc.sumAmountOut args.authorized_trade_intents a) →
        (Otc.otcMatch env st attached args c).isOk = false) := by
  have hzero : ∀ a, Otc.valOf [] a = 0 := by
    intro a
    simp [Otc.valOf, lookupA]
  obtain ⟨net, hok, hval, hnd⟩ :=
    Otc.assetsNetChange_ok args.authorized_trade_intents [] 0 hamounts
      (by intro a; rw [hzero a]; exact ⟨by omega, by omega⟩) (le_refl 0)
      (by
        have hlenZ : (args.authorized_trade_intents.length : Int) ≤ 2 ^ 32 := by
          exact_mod_cast hlen
        unfold Otc.I256LIM U128LIM
        push_cast
        nlinarith)
  have hndnet : NodupKeys net := hnd (by simp [NodupKeys, keysA])
  have hv : ∀ a, Otc.valOf net a =
      (Otc.sumAmountOut args.authorized_trade_intents a : Int) -
        (Otc.sumAmountIn args.authorized_trade_intents a : Int) := by
    intro a
    rw [hval a, hzero a]
    ring
  have hiff : (∀ kv ∈ net, kv.2 = (0 : Int)) ↔
      ∀ a, Otc.sumAmountIn args.authorized_trade_intents a =
        Otc.sumAmountOut args.authorized_trade_intents a := by
    rw [Otc.net_allZero_iff net hndnet]
    constructor
    · intro h a
      have := h a
      rw [hv a] at this
      omega
    · intro h a
      rw [hv a]
      have := h a
      omega
  refine ⟨net, hok, hv, hiff, ?_⟩
  intro hne
  have hallz : ¬(∀ kv ∈ net, kv.2 = (0 : Int)) := fun h => hne (hiff.mp h)
  have hall : (net.all fun kv => kv.2 = (0 : Int)) = false := by
    by_contra hc
    have h2 : (net.all fun kv => kv.2 = (0 : Int)) = true := by
      revert hc
      cases net.all fun kv => kv.2 = (0 : Int) <;> simp
    rw [List.all_eq_true] at h2
    exact hallz fun kv hkv => by simpa using h2 kv hkv
  have herr : Otc.netZeroCheck net = .error "Asset net sum is not zero" := by
    unfold Otc.netZeroCheck
    rw [if_neg]
    simp [hall]
  unfold Otc.otcMatch
  dsimp only
  split
  · rfl
  · split
    · rfl
    · rw [hok]
      dsimp only
      rw [herr]
      rfl

/-- **C6.** Nonce uniqueness in `match`: for an intent with a set nonce,
checked on the state left by the bounded per-user GC of at most 10
entries per expiry-kind sequence, the check-and-record step fails exactly
when `(user, nonce)` is already used, and otherwise records the pair and,
with an expiry, the `(expiry, nonce)` companion entry; moreover after any
successful `match` on a well-formed state every nonce set in a validity
is in the final used set. -/
theorem c6_nonce_uniqueness :
    (∀ (env : Otc.OtcEnv) (st0 : Otc.OtcState) (i : Otc.AuthorizedTradeIntent)
      (n : Otc.Nonce), i.trade_intent.validity.nonce = some n →
      (((i.trade_intent.user_id, n) ∈
          (Otc.gcExpiredTS env (Otc.gcExpiredBH env st0 i.trade_intent.user_id)
            i.trade_intent.user_id).used_nonces →
        Otc.nonceCheckRecord
          (Otc.gcExpiredTS env (Otc.gcExpiredBH env st0 i.trade_intent.user_id)
            i.trade_intent.user_id) i =
          .error "Intent not authorized: Nonce already used") ∧
      ((i.trade_intent.user_id, n) ∉
          (Otc.gcExpiredTS env (Otc.gcExpiredBH env st0 i.trade_intent.user_id)
            i.trade_intent.user_id).used_nonces →
        ∃ st2, Otc.nonceCheckRecord
            (Otc.gcExpiredTS env (Otc.gcExpiredBH env st0 i.trade_intent.user_id)
              i.trade_intent.user_id) i = .ok st2 ∧
          (i.trade_intent.user_id, n) ∈ st2.used_nonces ∧
          (∀ bh, i.trade_intent.validity.expiry = some (.blockHeight bh) →
            (bh, n) ∈ Otc.bhList st2 i.trade_intent.user_id) ∧
          (∀ ms, i.trade_intent.validity.expiry = some (.timestamp ms) →
            (ms, n) ∈ Otc.tsList st2 i.trade_intent.user_id)))) ∧
    (∀ (env : Otc.OtcEnv) (st : Otc.OtcState) (attached : List (AssetId × Nat))
      (args : Otc.MatchArgs) (c : Nat) (st2 : Otc.OtcState)
      (reqs : List AssetWithdrawRequest) (c2 : Nat),
      Otc.OtcNonceWF st →
      Otc.otcMatch env st attached args c = .ok (st2, reqs, c2) →
      ∀ i ∈ args.authorized_trade_intents, ∀ n,
        i.trade_intent.validity.nonce = some n →
        (i.trade_intent.user_id, n) ∈ st2.used_nonces) := by
  constructor
  · intro env st0 i n hn
    constructor
    · intro hmem
      exact Otc.nonceCheckRecord_used _ i n hn hmem
    · intro hmem
      exact Otc.nonceCheckRecord_fresh _ i n hn hmem
  · intro env st attached args c st2 reqs c2 hwf hok
    unfold Otc.otcMatch at hok
    dsimp only at hok
    split at hok
    · cases hok
    · split at hok
      · cases hok
      · split at hok
        · cases hok
        · split at hok
          · cases hok
          · have h0 : Otc.Inv env (fun _ _ => False) st :=
              ⟨hwf, fun w n hf => hf.elim⟩
            have hfin := Otc.processIntents_inv env _ _ _
              args.authorized_trade_intents (st, [], c) (st2, reqs, c2) _ hok h0
            intro i hi n hn
            have hsafe := hfin.2 i.trade_intent.user_id n (Or.inr ⟨i, hi, rfl, hn⟩)
            exact hsafe.1

set_option maxRecDepth 8192 in
/-- Witness for C6: on a state where `(alice, 1)` is used the check fails
after the (empty) GC, and a successful one-intent match with nonce 1 on a
fresh state leaves `(alice, 1)` in the used set. -/
theorem c6_nonce_uniqueness_witness :
    Otc.nonceCheckRecord
        (Otc.gcExpiredTS Otc.otcEnvW (Otc.gcExpiredBH Otc.otcEnvW Otc.otcStUsed "alice")
          "alice") Otc.otcIntentNonce =
      .error "Intent not authorized: Nonce already used" ∧
    ("alice", 1) ∈ Otc.otcStFinal.used_nonces := by
  constructor
  · have hmem : (Otc.otcIntentNonce.trade_intent.user_id, 1) ∈
        (Otc.gcExpiredTS Otc.otcEnvW
          (Otc.gcExpiredBH Otc.otcEnvW Otc.otcStUsed
            Otc.otcIntentNonce.trade_intent.user_id)
          Otc.otcIntentNonce.trade_intent.user_id).used_nonces := by
      show ("alice", 1) ∈ [("alice", 1)]
      exact List.mem_cons_self _ _
    exact (c6_nonce_uniqueness.1 Otc.otcEnvW Otc.otcStUsed Otc.otcIntentNonce 1 rfl).1 hmem
  · have hok : Otc.otcMatch Otc.otcEnvW Otc.otcStBal [] Otc.otcArgsNonce 0 =
        .ok (Otc.otcStFinal, [⟨.near, 1, .toInternalUserBalance "alice"⟩], 2) := rfl
    exact c6_nonce_uniqueness.2 Otc.otcEnvW Otc.otcStBal [] Otc.otcArgsNonce 0
      Otc.otcStFinal _ 2 Otc.otcStBal_wf hok Otc.otcIntentNonce
      (List.mem_cons_self _ _) 1 rfl

/-- Witness: a one-intent batch selling 2 and buying 1 of the same asset
has a nonzero net change and its `match` fails. -/
theorem c3_net_zero_check_witness :
    (Otc.otcMatch Otc.otcEnvW Otc.otcStEmpty [] Otc.otcArgsBad 0).isOk = false := by
  obtain ⟨net, hok, hval, hiff, hfail⟩ :=
    c3_net_zero_check Otc.otcEnvW Otc.otcStEmpty [] Otc.otcArgsBad 0
      (by
        intro i hi
        have h1 : i = Otc.otcIntentBad := by
          simpa [Otc.otcArgsBad] using hi
        subst h1
        constructor <;> norm_num [Otc.otcIntentBad, U128LIM])
      (by norm_num [Otc.otcArgsBad])
  exact hfail fun hall => by
    have h2 := hall .near
    have hin : Otc.sumAmountIn Otc.otcArgsBad.authorized_trade_intents .near = 2 := rfl
    have hout : Otc.sumAmountOut Otc.otcArgsBad.authorized_trade_intents .near = 1 := rfl
    rw [hin, hout] at h2
    exact absurd h2 (by norm_num)

end DexProof
